import Mathlib

/-!
Verification of the request-signing and authentication/session component of the
para-client-js repository (`ParaClient` in the main module, together with the
vendored `lib/util/AWS4Signer.js`).  The JavaScript source is embedded shallowly:
JS numbers-or-null-or-undefined session fields become the `JVal` type below, JS
objects used as header maps become association lists with in-place update, the
HTTP transport and the cryptographic primitives (`crypto.createHmac`,
`crypto.createHash`) are external collaborators and are passed in as explicit
function arguments, and the asynchronous promise chains become functions from
the session state and the (already-arrived) network response to the new state
and the resolved value.
-/

set_option autoImplicit false
set_option maxHeartbeats 1000000
set_option maxRecDepth 10000

namespace ParaClientJs

/-- A JavaScript value as stored in the session timestamp fields
(`tokenKeyExpires`, `tokenKeyNextRefresh`): `null`, `undefined`, or a number.
Timestamps in the source are integral epoch milliseconds/seconds, so the
numeric case is `Int`. -/
inductive JVal where
  | null
  | undef
  | num (n : Int)
  deriving DecidableEq, Repr

/-- JS `ToNumber` on a `JVal` as used by the relational operators:
`null` coerces to `0`, `undefined` coerces to NaN (`none`). -/
def JVal.toNumber : JVal → Option Int
  | .null => some 0
  | .undef => none
  | .num n => some n

/-- JS `a < b` on two `JVal`s: numeric comparison after `ToNumber`;
any comparison involving NaN is `false`. -/
def jsLt (a b : JVal) : Bool :=
  match a.toNumber, b.toNumber with
  | some x, some y => x < y
  | _, _ => false

/-- JS `a > b` on two `JVal`s. -/
def jsGt (a b : JVal) : Bool :=
  match a.toNumber, b.toNumber with
  | some x, some y => x > y
  | _, _ => false

/-- JS truthiness of a `JVal` (`if (decoded["exp"]) ...`): `null`, `undefined`
and the number `0` are falsy. -/
def JVal.truthy : JVal → Bool
  | .null => false
  | .undef => false
  | .num n => n ≠ 0

/-- The token-related fields of a `ParaClient` instance:
`this.tokenKey`, `this.tokenKeyExpires`, `this.tokenKeyNextRefresh`.
`tokenKey` is a string or `null` (`Option String`, `none` = JS `null`). -/
structure Session where
  tokenKey : Option String
  tokenKeyExpires : JVal
  tokenKeyNextRefresh : JVal
  deriving DecidableEq, Repr

/-- Constructor state: all three fields are initialised to `null`. -/
def Session.init : Session :=
  { tokenKey := none, tokenKeyExpires := .null, tokenKeyNextRefresh := .null }

/-- `clearAccessToken()`: sets all three token fields to `null`. -/
def clearAccessToken (_s : Session) : Session :=
  { tokenKey := none, tokenKeyExpires := .null, tokenKeyNextRefresh := .null }

/-- `getAccessToken()`: returns `this.tokenKey`. -/
def getAccessToken (s : Session) : Option String :=
  s.tokenKey

/-- Outcome of `JSON.parse(decode(token.split(".")[1]))` inside `setAccessToken`:
either the decode/parse chain threw (`err`), or it produced a falsy value
(`okFalsy`, e.g. `JSON.parse("null")`), or it produced an object whose `exp`
and `refresh` members are the given `JVal`s (`undef` when absent). -/
inductive TokenParse where
  | err
  | okFalsy
  | okObj (exp refresh : JVal)
  deriving DecidableEq, Repr

/-- `setAccessToken(token)`.  The base64url/JSON decoding of the middle token
segment is performed by the external `Buffer`/`JSON` collaborators, abstracted
as the `parse` argument.  When the token is truthy and longer than one
character the payload is parsed: on an exception the expiry/refresh fields are
reset to `null`; on a parsed object with a truthy `exp` member the `exp` and
`refresh` members are copied into the session; otherwise no field is touched.
The raw token string is stored unconditionally. -/
def setAccessToken (parse : String → TokenParse) (s : Session)
    (token : Option String) : Session :=
  let s1 :=
    match token with
    | some t =>
      if t.length > 1 then
        match parse t with
        | .err => { s with tokenKeyExpires := .null, tokenKeyNextRefresh := .null }
        | .okFalsy => s
        | .okObj exp refresh =>
          if exp.truthy then
            { s with tokenKeyExpires := exp, tokenKeyNextRefresh := refresh }
          else s
      else s
    | none => s
  { s1 with tokenKey := token }

/-- Resolution of the promise returned by `getEntity(...)`: `reject` covers a
transport error or a non-2xx/304 status (both reject the promise and land in
the `.catch`), `ok v` is a resolution with body `v`. -/
inductive NetResult (α : Type) where
  | reject
  | ok (v : α)
  deriving DecidableEq, Repr

/-- The `jwt` member of a successful `/jwt_auth` response body:
`{access_token, expires, refresh}`. -/
structure JwtData where
  access_token : Option String
  expires : JVal
  refresh : JVal
  deriving DecidableEq, Repr

/-- A non-null `/jwt_auth` response body; `user` and `jwt` are `none` when the
corresponding member is absent or falsy (the source tests
`result["user"] && result["jwt"]` by truthiness). -/
structure AuthBody where
  user : Option String
  jwt : Option JwtData
  deriving DecidableEq, Repr

/-- Result of `signIn`: the session after the promise chain settles, the value
the promise resolves with (`none` models the JS `null` user), and whether the
network request to `/jwt_auth` was issued at all. -/
structure SignInOutcome where
  state : Session
  user : Option String
  sentRequest : Bool
  deriving DecidableEq, Repr

/-- JS truthiness of an optional string argument (`provider`,
`providerToken`): missing (`none`) and the empty string are falsy. -/
def strTruthy : Option String → Bool
  | none => false
  | some s => s ≠ ""

/-- `signIn(provider, providerToken, rememberJWT)`.  When both arguments are
truthy the `POST /jwt_auth` request is sent and `resp` is how its
`getEntity` promise settles; otherwise the method returns `null` at once.
The `.then` branch stores the token data when the body has truthy `user` and
`jwt` members (and `rememberJWT` holds), clears the token otherwise; the
`.catch` branch resolves with `null` and touches nothing. -/
def signIn (s : Session) (provider providerToken : Option String)
    (rememberJWT : Bool) (resp : NetResult (Option AuthBody)) : SignInOutcome :=
  if strTruthy provider ∧ strTruthy providerToken then
    match resp with
    | .reject => { state := s, user := none, sentRequest := true }
    | .ok result =>
      match result with
      | some body =>
        match body.user, body.jwt with
        | some u, some jwtData =>
          if rememberJWT then
            { state := { tokenKey := jwtData.access_token,
                         tokenKeyExpires := jwtData.expires,
                         tokenKeyNextRefresh := jwtData.refresh },
              user := some u, sentRequest := true }
          else
            { state := s, user := some u, sentRequest := true }
        | _, _ =>
          { state := clearAccessToken s, user := none, sentRequest := true }
      | none =>
        { state := clearAccessToken s, user := none, sentRequest := true }
  else
    { state := s, user := none, sentRequest := false }

/-- Result of `refreshToken`: the session after the call settles, the boolean
the promise resolves with, and whether the `GET /jwt_auth` network call was
made. -/
structure RefreshOutcome where
  state : Session
  refreshed : Bool
  madeCall : Bool
  deriving DecidableEq, Repr

/-- The gate of `refreshToken`, transcribed from the source:
`tokenKey !== null && (tokenKeyExpires !== null && tokenKeyExpires > now)
&& (tokenKeyNextRefresh !== null && (tokenKeyNextRefresh < now ||
tokenKeyNextRefresh > tokenKeyExpires))`. -/
def refreshTokenGate (s : Session) (now : Int) : Bool :=
  let notExpired := s.tokenKeyExpires ≠ JVal.null && jsGt s.tokenKeyExpires (.num now)
  let canRefresh := s.tokenKeyNextRefresh ≠ JVal.null &&
    (jsLt s.tokenKeyNextRefresh (.num now) || jsGt s.tokenKeyNextRefresh s.tokenKeyExpires)
  s.tokenKey ≠ none && notExpired && canRefresh

/-- `refreshToken()`.  When the gate holds the `GET /jwt_auth` request is made
and `resp` is how its promise settles; otherwise the method resolves `false`
without any network call. -/
def refreshToken (s : Session) (now : Int)
    (resp : NetResult (Option AuthBody)) : RefreshOutcome :=
  if refreshTokenGate s now then
    match resp with
    | .reject => { state := s, refreshed := false, madeCall := true }
    | .ok result =>
      match result with
      | some body =>
        match body.user, body.jwt with
        | some _, some jwtData =>
          { state := { tokenKey := jwtData.access_token,
                       tokenKeyExpires := jwtData.expires,
                       tokenKeyNextRefresh := jwtData.refresh },
            refreshed := true, madeCall := true }
        | _, _ =>
          { state := clearAccessToken s, refreshed := false, madeCall := true }
      | none =>
        { state := clearAccessToken s, refreshed := false, madeCall := true }
  else
    { state := s, refreshed := false, madeCall := false }

/-- `revokeAllTokens()`: issues `DELETE /jwt_auth` and resolves with
`result !== null`; the `.catch` branch resolves `false`.  The body type is
opaque (`Option String`, `none` = JS `null` result).  No session field is
written anywhere in the method. -/
def revokeAllTokens (s : Session) (resp : NetResult (Option String)) :
    Session × Bool :=
  match resp with
  | .reject => (s, false)
  | .ok result => (s, result ≠ none)

/-! ### String scaffolding

JS string operations are modelled structurally over `List Char` so that every
definition evaluates by kernel reduction. -/

/-- `leadsWith p l` is true when the char list `p` is a prefix of `l`
(JS `startsWith`). -/
def leadsWith : List Char → List Char → Bool
  | [], _ => true
  | _ :: _, [] => false
  | p :: ps, x :: xs => p = x && leadsWith ps xs

/-- `trailsWith p l` is true when `p` is a suffix of `l` (JS `endsWith`). -/
def trailsWith (p l : List Char) : Bool :=
  leadsWith p.reverse l.reverse

/-- Splits a char list on a separator char; like JS `split`, the result always
has one more element than there are separators. -/
def splitOnChar (c : Char) : List Char → List (List Char)
  | [] => [[]]
  | x :: xs =>
    let rest := splitOnChar c xs
    if x = c then [] :: rest
    else
      match rest with
      | [] => [[x]]
      | r :: rs => (x :: r) :: rs

/-- JS whitespace as matched by `\s` for the header values in play. -/
def isWsChar (c : Char) : Bool :=
  c = ' ' || c = '\t' || c = '\n' || c = '\r'

/-- `trim` on a char list: drop leading and trailing whitespace. -/
def trimChars (l : List Char) : List Char :=
  ((l.dropWhile isWsChar).reverse.dropWhile isWsChar).reverse

/-- `String.trim` modelled structurally. -/
def jsTrim (s : String) : String :=
  String.mk (trimChars s.toList)

/-- ASCII `toLowerCase` on a string. -/
def lowerStr (s : String) : String :=
  String.mk (s.toList.map Char.toLower)

/-- JS string `<`: lexicographic comparison on code units. -/
def charListLt : List Char → List Char → Bool
  | [], [] => false
  | [], _ :: _ => true
  | _ :: _, [] => false
  | a :: as, b :: bs =>
    if a.toNat < b.toNat then true
    else if b.toNat < a.toNat then false
    else charListLt as bs

/-- JS string `<` lifted to `String`. -/
def strLtJs (a b : String) : Bool :=
  charListLt a.toList b.toList

/-- Insertion step of the insertion sort used to model JS `Array.sort`. -/
def insertBy (lt : String → String → Bool) (x : String) :
    List String → List String
  | [] => [x]
  | y :: ys => if lt x y then x :: y :: ys else y :: insertBy lt x ys

/-- Insertion sort used to model JS `Array.sort(cmp)`; the comparators in the
source never return `0`, so ordering of `cmp`-equal elements is immaterial to
the claims. -/
def sortBy (lt : String → String → Bool) : List String → List String
  | [] => []
  | x :: xs => insertBy lt x (sortBy lt xs)

/-- JS `||` on optional strings: first truthy operand (missing and empty are
falsy). -/
def jsOr (a b : Option String) : Option String :=
  if strTruthy a then a else b

/-- JS string coercion of a possibly-`undefined` string
(`'AWS4' + undefined` is `"AWS4undefined"`). -/
def jsStr : Option String → String
  | some s => s
  | none => "undefined"

/-! ### Header maps

A JS object used as a header map: an association list in insertion order,
property update replaces the value in place, new properties append. -/

/-- A JS header object. -/
abbrev Headers := List (String × String)

/-- JS property write `h[k] = v`: replaces in place, appends when absent. -/
def hset : Headers → String → String → Headers
  | [], k, v => [(k, v)]
  | (k', v') :: rest, k, v =>
    if k' = k then (k, v) :: rest else (k', v') :: hset rest k v

/-- JS `delete h[k]`. -/
def hdel (h : Headers) (k : String) : Headers :=
  h.filter (fun kv => kv.1 ≠ k)

/-- JS property read `h[k]` (`none` = `undefined`). -/
def hget (h : Headers) (k : String) : Option String :=
  (h.find? (fun kv => kv.1 = k)).map (·.2)

/-- The value the HTTP layer ends up sending for the `Authorization` header:
`superagent` `.set` iterates the header object in insertion order and Node
stores headers case-insensitively with last-write-wins, so the wire value is
the value of the last entry whose lower-cased name is `authorization`. -/
def wireAuth : Headers → Option String
  | [] => none
  | kv :: t =>
    match wireAuth t with
    | some v => some v
    | none => if lowerStr kv.1 = "authorization" then some kv.2 else none

/-! ### Request paths -/

/-- The fixed JWT endpoint path. -/
def JWT_PATH : String := "/jwt_auth"

/-- `apiPath.indexOf("/", 1)` (JS semantics, `-1` when absent). -/
def idxSlashFrom1 (l : List Char) : Int :=
  match (l.drop 1).findIdx? (· = '/') with
  | some i => (i : Int) + 1
  | none => -1

/-- `getFullPath(resourcePath)` from the client constructor: a resource path
that starts with the JWT path is returned as-is unless `apiPath` contains more
than two slashes, in which case the first segment of `apiPath` is prepended;
any other resource path is appended to `apiPath` (with a leading slash
stripped). -/
def getFullPath (apiPath resourcePath : String) : String :=
  if resourcePath ≠ "" ∧ leadsWith JWT_PATH.toList resourcePath.toList then
    if (apiPath.toList.filter (· = '/')).length > 2 then
      String.mk (apiPath.toList.take (idxSlashFrom1 apiPath.toList).toNat)
        ++ resourcePath
    else resourcePath
  else
    apiPath ++ String.mk
      (match resourcePath.toList with
       | '/' :: rest => rest
       | l => l)

/-- The guard in `invokeSignedRequest` deciding whether `refreshToken()` is
invoked for a request: a token is held (`tokenKey !== null`) and the request
is not a `GET` whose path is exactly `JWT_PATH`. -/
def refreshInvokedOnRequest (tokenKey : Option String)
    (httpMethod reqPath : String) : Bool :=
  tokenKey ≠ none && !(httpMethod = "GET" && reqPath = JWT_PATH)

/-! ### Query parameter reduction -/

/-- A value in the `params` map handed to `invokeSignedRequest`: a scalar
string, a scalar JS `null`, or an array whose elements are strings or `null`. -/
inductive PVal where
  | str (s : String)
  | nul
  | arr (vs : List (Option String))
  deriving DecidableEq, Repr

/-- The multi-value reduction in `invokeSignedRequest`: array values keep only
their first element (`null` becomes `""`), empty arrays drop the key, scalar
`null` becomes `""`. -/
def reduceParams : List (String × PVal) → List (String × String)
  | [] => []
  | (k, .str s) :: rest => (k, s) :: reduceParams rest
  | (k, .nul) :: rest => (k, "") :: reduceParams rest
  | (_k, .arr []) :: rest => reduceParams rest
  | (k, .arr (some v :: _)) :: rest => (k, v) :: reduceParams rest
  | (k, .arr (none :: _)) :: rest => (k, "") :: reduceParams rest

/-! ### AWS4Signer (vendored `lib/util/AWS4Signer.js`)

The signer is embedded with its external collaborators — Node's `crypto`,
`url`, `querystring` modules, `Buffer`, `URLSearchParams` and the
`Date`-formatting for generated timestamps — gathered in the `NodeLib`
record of function arguments.  All of the signer's own logic (host matching,
service/region resolution, canonicalization, key derivation and caching,
header assembly) is transcribed. -/

/-- `{accessKeyId, secretAccessKey, [sessionToken]}`; the secret and session
token may be JS `undefined`. -/
structure Credentials where
  accessKeyId : String
  secretAccessKey : Option String
  sessionToken : Option String
  deriving DecidableEq, Repr

/-- The request descriptor handed to `AWS4Signer`
(`{ path | body, [host], [method], [headers], [service], [region] }` plus the
`signQuery`/`doNotModifyHeaders` flags). -/
structure SignRequest where
  method : Option String
  hostname : Option String
  host : Option String
  path : Option String
  headers : Headers
  body : Option String
  service : Option String
  region : Option String
  signQuery : Bool
  doNotModifyHeaders : Bool
  deriving DecidableEq, Repr

/-- A value of Node's `querystring.parse` result object: a single string or an
array of strings (for repeated keys). -/
inductive QsVal where
  | one (s : String)
  | many (vs : List String)
  deriving DecidableEq, Repr

/-- The external Node collaborators used by the signer and the client.
`formatDatetime` is the composite `new Date(hdr || now).toISOString()`
compact-ISO8601 reformatting in `getDateTime` (argument: the `Date`/`date`
header when present). -/
structure NodeLib where
  hmacBin : String → String → String
  hmacHex : String → String → String
  hashHex : String → String
  byteLength : String → Nat
  urlResolveRoot : String → String
  qsParse : String → List (String × QsVal)
  qsStringify : List (String × QsVal) → String
  urlParseQuery : String → String × Headers
  urlFormatQuery : String × Headers → String
  serializeParams : List (String × String) → String
  encodeURIComponentJs : String → String
  formatDatetime : Option String → String

/-- JS truthiness of the optional `body` field (empty string is falsy). -/
def bodyTruthy : Option String → Bool
  | none => false
  | some b => b ≠ ""

/-- `matchHost`: the regex `^([^\.]+)\.?([^\.]*)\.amazonaws\.com$` — the host
must end in `.amazonaws.com` and the part before it must be one or two
dot-free segments, the first non-empty.  Returns the two captured groups. -/
def matchHost (host : Option String) : Option (String × String) :=
  let h := (host.getD "").toList
  if trailsWith ".amazonaws.com".toList h then
    let stem := h.take (h.length - ".amazonaws.com".length)
    match splitOnChar '.' stem with
    | [a] => if a ≠ [] then some (String.mk a, "") else none
    | [a, b] => if a ≠ [] then some (String.mk a, String.mk b) else none
    | _ => none
  else none

/-- `isSingleRegion`: S3/SimpleDB in us-east-1, plus the global services. -/
def isSingleRegion (service region : String) : Bool :=
  if (service = "s3" || service = "sdb") && region = "us-east-1" then true
  else
    service = "cloudfront" || service = "ls" || service = "route53" ||
      service = "iam" || service = "importexport" || service = "sts"

/-- `createHost`: reassembles a default `*.amazonaws.com` host from the
resolved service and region, undoing the `ses`→`email` remap. -/
def createHost (service region : String) : String :=
  let regionPart :=
    if isSingleRegion service region then ""
    else (if service = "s3" ∧ region ≠ "us-east-1" then "-" else ".") ++ region
  let servicePart := if service = "ses" then "email" else service
  servicePart ++ regionPart ++ ".amazonaws.com"

/-- The signer instance: the (mutated) request, the credentials and the
resolved `service`/`region`, plus the memoized `this.datetime`. -/
structure SignerState where
  request : SignRequest
  credentials : Credentials
  service : String
  region : String
  datetime : Option String
  deriving Repr

/-- The `AWS4Signer` constructor: resolves service and region from explicit
overrides or the host pattern (defaulting the region to `us-east-1`), remaps
the `email` service to `ses`, defaults the method to `POST` when a body is
present, and fills in the `Host` header / `hostname` field from each other. -/
def mkSigner (request : SignRequest) (credentials : Credentials) : SignerState :=
  let headers := request.headers
  let hostIn := jsOr (jsOr request.hostname request.host)
    (jsOr (hget headers "Host") (hget headers "host"))
  let hostParts := matchHost hostIn
  let service1 := (jsOr request.service (hostParts.map (·.1))).getD ""
  let region := (jsOr (jsOr request.region (hostParts.map (·.2)))
    (some "us-east-1")).getD "us-east-1"
  let service := if service1 = "email" then "ses" else service1
  let method := if ¬ strTruthy request.method ∧ bodyTruthy request.body
    then some "POST" else request.method
  let headers1 :=
    if ¬ strTruthy (hget headers "Host") ∧ ¬ strTruthy (hget headers "host") then
      hset headers "Host"
        (jsStr ((jsOr (jsOr request.hostname request.host)
          (some (createHost service region)))))
    else headers
  let hostname1 :=
    if ¬ strTruthy request.hostname ∧ ¬ strTruthy request.host then
      jsOr (hget headers1 "Host") (hget headers1 "host")
    else request.hostname
  { request := { request with
      method := method, headers := headers1, hostname := hostname1 },
    credentials := credentials, service := service, region := region,
    datetime := none }

/-- `getDateTime()`: memoizes; when not yet set, formats the `Date`/`date`
header (or the current time) in compact ISO8601-basic form. -/
def getDateTimeS (lib : NodeLib) (st : SignerState) : String × SignerState :=
  match st.datetime with
  | some d => (d, st)
  | none =>
    let d := lib.formatDatetime
      (jsOr (hget st.request.headers "Date") (hget st.request.headers "date"))
    (d, { st with datetime := some d })

/-- `getDate()`: the first eight characters of the datetime. -/
def getDateS (lib : NodeLib) (st : SignerState) : String × SignerState :=
  let (dt, st) := getDateTimeS lib st
  (String.mk (dt.toList.take 8), st)

/-- `credentialString()`: `date/region/service/aws4_request`. -/
def credentialStringS (lib : NodeLib) (st : SignerState) : String × SignerState :=
  let (date, st) := getDateS lib st
  (date ++ "/" ++ st.region ++ "/" ++ st.service ++ "/aws4_request", st)

/-- Tokenizes a char list into maximal runs of non-whitespace characters. -/
def wsTokens : List Char → List Char → List (List Char)
  | [], acc => if acc = [] then [] else [acc.reverse]
  | c :: rest, acc =>
    if isWsChar c then
      if acc = [] then wsTokens rest [] else acc.reverse :: wsTokens rest []
    else wsTokens rest (c :: acc)

/-- `trimAll`: `header.toString().trim().replace(/\s+/g, ' ')` — equivalently,
the whitespace-separated tokens joined by single spaces. -/
def trimAllJs (v : String) : String :=
  String.intercalate " " ((wsTokens v.toList []).map String.mk)

/-- `canonicalHeaders()`: keys sorted case-insensitively, lower-cased, joined
with their trimmed values as `name:value` lines. -/
def canonicalHeaders (h : Headers) : String :=
  let keys := sortBy (fun a b => strLtJs (lowerStr a) (lowerStr b)) (h.map (·.1))
  String.intercalate "\n"
    (keys.map (fun k => lowerStr k ++ ":" ++ trimAllJs ((hget h k).getD "")))

/-- `signedHeaders()`: lower-cased header names, sorted, joined with `;`. -/
def signedHeaders (h : Headers) : String :=
  String.intercalate ";" (sortBy strLtJs (h.map (fun kv => lowerStr kv.1)))

/-- The `.replace(/[!'()*]/g, c => '%' + hex(c))` pass applied to the
stringified canonical query (the five characters some encoders leave bare,
percent-escaped with uppercase hex). -/
def escapeAwsChars : List Char → List Char
  | [] => []
  | c :: rest =>
    (if c = '!' then "%21".toList
     else if c = Char.ofNat 39 then "%27".toList  -- apostrophe
     else if c = '(' then "%28".toList
     else if c = ')' then "%29".toList
     else if c = '*' then "%2A".toList
     else [c]) ++ escapeAwsChars rest

/-- `.replace(/\/{2,}/g, '/')`: collapses runs of slashes; the flag records
whether the previous character was a slash. -/
def collapseSlashesAux : List Char → Bool → List Char
  | [], _ => []
  | c :: rest, prevSlash =>
    if c = '/' then
      if prevSlash then collapseSlashesAux rest true
      else '/' :: collapseSlashesAux rest true
    else c :: collapseSlashesAux rest false

/-- The query branch of `canonicalString()`: `querystring.parse` the raw
query, sort the keys (and each multi-value array) with the default JS sort,
re-stringify, and percent-escape `!'()*`. -/
def canonicalQuery (lib : NodeLib) (qs : String) : String :=
  let query : List (String × QsVal) := lib.qsParse qs
  let sortedKeys := sortBy strLtJs (query.map (fun kv => kv.1))
  let reduced : List (String × QsVal) := sortedKeys.map (fun k =>
    (k, match (query.find? (fun kv => kv.1 = k)).map (fun kv => kv.2) with
        | some (QsVal.many vs) => QsVal.many (sortBy strLtJs vs)
        | some v => v
        | none => QsVal.one ""))
  String.mk (escapeAwsChars (lib.qsStringify reduced).toList)

/-- `canonicalString()`: the newline-joined tuple of method, resolved
collapsed path, canonical query, canonical headers (with trailing blank
line), signed header names and body hash. -/
def canonicalString (lib : NodeLib) (st : SignerState) : String :=
  let pathStr := (jsOr st.request.path (some "/")).getD "/"
  let bodyHash :=
    if st.service = "s3" ∧ st.request.signQuery then "UNSIGNED-PAYLOAD"
    else lib.hashHex (st.request.body.getD "")
  let (pathStr2, queryStr) :=
    match pathStr.toList.findIdx? (· = '?') with
    | none => (pathStr, "")
    | some i =>
      (String.mk (pathStr.toList.take i),
       canonicalQuery lib (String.mk (pathStr.toList.drop (i + 1))))
  let resolved := lib.urlResolveRoot (String.mk (collapseSlashesAux pathStr2.toList false))
  let canonPath := if resolved = "" then "/" else resolved
  String.intercalate "\n"
    [(jsOr st.request.method (some "GET")).getD "GET", canonPath, queryStr,
     canonicalHeaders st.request.headers ++ "\n",
     signedHeaders st.request.headers, bodyHash]

/-- `stringToSign()`: algorithm, datetime, credential scope and the hex hash
of the canonical request, newline-joined. -/
def stringToSign (lib : NodeLib) (st : SignerState) : String × SignerState :=
  let (dt, st) := getDateTimeS lib st
  let (credStr, st) := credentialStringS lib st
  (String.intercalate "\n"
    ["AWS4-HMAC-SHA256", dt, credStr, lib.hashHex (canonicalString lib st)], st)

/-- The module-level `credentialsCache = lru(1000)`: a bounded LRU map from
joined key strings to derived-key bytes, most recently used first. -/
structure LruCache where
  capacity : Nat
  entries : List (String × String)
  deriving DecidableEq, Repr

/-- The cache as created at module load: `lru(1000)`. -/
def LruCache.initial : LruCache := { capacity := 1000, entries := [] }

/-- `lru.get(k)`: returns the stored value and promotes the entry to
most-recently-used. -/
def lruGet (c : LruCache) (k : String) : Option String × LruCache :=
  match (c.entries.find? (fun kv => kv.1 = k)).map (·.2) with
  | none => (none, c)
  | some v =>
    (some v, { c with entries := (k, v) :: c.entries.filter (fun kv => kv.1 ≠ k) })

/-- `lru.set(k, v)`: inserts as most-recently-used, evicting beyond
capacity. -/
def lruSet (c : LruCache) (k v : String) : LruCache :=
  { c with entries :=
      ((k, v) :: c.entries.filter (fun kv => kv.1 ≠ k)).take c.capacity }

/-- The cache key of `signature()`:
`[secretAccessKey, date, region, service].join()` — `Array.join` with the
default comma separator, rendering an `undefined` secret as the empty
string. -/
def cacheKeyOf (secret : Option String) (date region service : String) : String :=
  (secret.getD "") ++ "," ++ date ++ "," ++ region ++ "," ++ service

/-- The four-step HMAC-SHA256 derivation chain of `signature()`:
`kDate = HMAC('AWS4' + secret, date)`, `kRegion = HMAC(kDate, region)`,
`kService = HMAC(kRegion, service)`, `kCredentials = HMAC(kService,
'aws4_request')`. -/
def deriveChain (lib : NodeLib) (secret : Option String)
    (date region service : String) : String :=
  let kDate := lib.hmacBin ("AWS4" ++ jsStr secret) date
  let kRegion := lib.hmacBin kDate region
  let kService := lib.hmacBin kRegion service
  lib.hmacBin kService "aws4_request"

/-- `signature()`: looks the derived key up in the module cache (computing and
storing it on a miss) and HMACs the string-to-sign with it. -/
def signatureC (lib : NodeLib) (st : SignerState) (cache : LruCache) :
    String × SignerState × LruCache :=
  let (date, st) := getDateS lib st
  let cacheKey := cacheKeyOf st.credentials.secretAccessKey date st.region st.service
  let (hit, cache) := lruGet cache cacheKey
  let (kCredentials, cache) :=
    match hit with
    | some k => (k, cache)
    | none =>
      let k := deriveChain lib st.credentials.secretAccessKey date st.region st.service
      (k, lruSet cache cacheKey k)
  let (sts, st) := stringToSign lib st
  (lib.hmacHex kCredentials sts, st, cache)

/-- `authHeader()`:
`'AWS4-HMAC-SHA256 Credential=' + accessKeyId + '/' + credentialString()`,
the signed headers and the signature, `join(', ')`-ed. -/
def authHeader (lib : NodeLib) (st : SignerState) (cache : LruCache) :
    String × SignerState × LruCache :=
  let (credStr, st) := credentialStringS lib st
  let sh := signedHeaders st.request.headers
  let (sig, st, cache) := signatureC lib st cache
  ("AWS4-HMAC-SHA256 Credential=" ++ st.credentials.accessKeyId ++ "/" ++ credStr
     ++ ", " ++ "SignedHeaders=" ++ sh ++ ", " ++ "Signature=" ++ sig,
   st, cache)

/-- `sign()`, query mode: injects the signing parameters into the query
string of `request.path` and appends `&X-Amz-Signature=...`. -/
def signQueryMode (lib : NodeLib) (st : SignerState) (cache : LruCache) :
    SignerState × LruCache :=
  let (base, query) := lib.urlParseQuery ((jsOr st.request.path (some "/")).getD "/")
  let query :=
    match st.credentials.sessionToken with
    | some tok => if tok ≠ "" then hset query "X-Amz-Security-Token" tok else query
    | none => query
  let query :=
    if st.service = "s3" ∧ ¬ strTruthy (hget query "X-Amz-Expires") then
      hset query "X-Amz-Expires" "86400"
    else query
  let (query, st) :=
    if strTruthy (hget query "X-Amz-Date") then
      (query, { st with datetime := hget query "X-Amz-Date" })
    else
      let (dt, st) := getDateTimeS lib st
      (hset query "X-Amz-Date" dt, st)
  let query := hset query "X-Amz-Algorithm" "AWS4-HMAC-SHA256"
  let (credStr, st) := credentialStringS lib st
  let query := hset query "X-Amz-Credential" (st.credentials.accessKeyId ++ "/" ++ credStr)
  let query := hset query "X-Amz-SignedHeaders" (signedHeaders st.request.headers)
  let st := { st with request := { st.request with
    path := some (lib.urlFormatQuery (base, query)) } }
  let (sig, st, cache) := signatureC lib st cache
  ({ st with request := { st.request with
     path := some ((st.request.path.getD "") ++ "&X-Amz-Signature=" ++ sig) } },
   cache)

/-- The header-fixup phase of `sign()` in header mode (the
`!request.doNotModifyHeaders` block): fills in `Content-Type`/
`Content-Length` when a body exists, the session token, the S3 payload hash,
and reuses or stamps the `X-Amz-Date` header. -/
def signFixupHeaders (lib : NodeLib) (st : SignerState) : SignerState :=
  if ¬ st.request.doNotModifyHeaders then
    let h := st.request.headers
    let h :=
      if bodyTruthy st.request.body ∧ ¬ strTruthy (hget h "Content-Type") ∧
          ¬ strTruthy (hget h "content-type") then
        hset h "Content-Type" "application/x-www-form-urlencoded; charset=utf-8"
      else h
    let h :=
      if bodyTruthy st.request.body ∧ ¬ strTruthy (hget h "Content-Length") ∧
          ¬ strTruthy (hget h "content-length") then
        hset h "Content-Length" (toString (lib.byteLength (st.request.body.getD "")))
      else h
    let h :=
      match st.credentials.sessionToken with
      | some tok => if tok ≠ "" then hset h "X-Amz-Security-Token" tok else h
      | none => h
    let h :=
      if st.service = "s3" then
        hset h "X-Amz-Content-Sha256" (lib.hashHex (st.request.body.getD ""))
      else h
    if strTruthy (hget h "X-Amz-Date") then
      let req := { st.request with headers := h }
      { st with request := req, datetime := hget h "X-Amz-Date" }
    else
      let st := { st with request := { st.request with headers := h } }
      let (dt, st) := getDateTimeS lib st
      { st with request := { st.request with
        headers := hset st.request.headers "X-Amz-Date" dt } }
  else st

/-- `sign()`, header mode: the header fixup, then deletion of any existing
`Authorization`/`authorization` header and the write of the freshly computed
one. -/
def signHeaderMode (lib : NodeLib) (st : SignerState) (cache : LruCache) :
    SignerState × LruCache :=
  let st := signFixupHeaders lib st
  let h := hdel (hdel st.request.headers "Authorization") "authorization"
  let st := { st with request := { st.request with headers := h } }
  let (auth, st, cache) := authHeader lib st cache
  ({ st with request := { st.request with
     headers := hset st.request.headers "Authorization" auth } },
   cache)

/-- `sign()`: dispatches on `signQuery` and returns the mutated request. -/
def signS (lib : NodeLib) (st : SignerState) (cache : LruCache) :
    SignerState × LruCache :=
  if st.request.signQuery then signQueryMode lib st cache
  else signHeaderMode lib st cache

/-- `AWS4Signer.sign(request, credentials)`: constructor followed by
`.sign()`. -/
def aws4sign (lib : NodeLib) (request : SignRequest) (credentials : Credentials)
    (cache : LruCache) : SignRequest × LruCache :=
  let (st, cache) := signS lib (mkSigner request credentials) cache
  (st.request, cache)

/-! ### `invokeSignedRequest` -/

/-- `urlEncode`: `encodeURIComponent` (external) followed by the `!'()*`
percent-escape pass. -/
def urlEncode (enc : String → String) (path : String) : String :=
  String.mk (escapeAwsChars (enc path).toList)

/-- The `.replace(/%2F/g, "/")` pass of `uriEncodeAWSV4`; the `Nat` fuel is
the input length, enough for the left-to-right scan. -/
def unescapeSlashes : Nat → List Char → List Char
  | 0, l => l
  | fuel + 1, l =>
    match l with
    | [] => []
    | c :: rest =>
      if leadsWith "%2F".toList (c :: rest) then
        '/' :: unescapeSlashes fuel (rest.drop 2)
      else c :: unescapeSlashes fuel rest

/-- `uriEncodeAWSV4(path)`: empty for a falsy path, otherwise `urlEncode`
with `%2F` turned back into `/`. -/
def uriEncodeAWSV4 (enc : String → String) (path : String) : String :=
  if path = "" then ""
  else
    let l := (urlEncode enc path).toList
    String.mk (unescapeSlashes l.length l)

/-- The secret-key branch of `invokeSignedRequest`: builds the `opts` request
descriptor (service `para`, stripped host, encoded-and-extended path, the
accumulated headers and body) and hands it to `AWS4Signer.sign` with the
client's access key and secret. -/
def invokeSignedSign (lib : NodeLib) (accessKey : String) (secret : Option String)
    (httpMethod host path1 : String) (headers2 : Headers) (body : Option String)
    (cache : LruCache) : SignRequest × LruCache :=
  let req : SignRequest :=
    { method := some httpMethod, hostname := none, host := some host,
      path := some path1, headers := headers2, body := body,
      service := some "para", region := none, signQuery := false,
      doNotModifyHeaders := false }
  aws4sign lib req
    { accessKeyId := accessKey, secretAccessKey := secret, sessionToken := none }
    cache

/-- What `invokeSignedRequest` hands to the HTTP transport: the final header
object, the path the signature was computed over (`opts.path`), the request
body, and whether `refreshToken()` was invoked on the way. -/
structure InvokeResult where
  headers : Headers
  signedPath : String
  body : Option String
  calledRefresh : Bool
  deriving DecidableEq, Repr

/-- `invokeSignedRequest(httpMethod, endpointURL, reqPath, headers, params,
jsonEntity)`, modelled for the Node environment (no browser `Host`-header
deletion).  `accessKey`/`secret` are the closure variables of the client;
`sess` is the token state read synchronously; `jsonEntity` is the
already-`JSON.stringify`-ed entity (`none` when absent).  Throwing on a blank
access key is the `.error` case. -/
def invokeSignedRequest (lib : NodeLib) (accessKey : String)
    (secret : Option String) (sess : Session)
    (httpMethod endpointURL reqPath : String) (headers0 : Option Headers)
    (params : Option (List (String × PVal))) (jsonEntity : Option String)
    (cache : LruCache) : Except String (InvokeResult × LruCache) :=
  if jsTrim accessKey = "" then
    .error ("Blank access key: " ++ httpMethod ++ " " ++ reqPath)
  else
    let hdrs := headers0.getD []
    let anon := ¬ strTruthy secret ∧ ¬ strTruthy sess.tokenKey ∧ hdrs = []
    let (headers1, doSign) :=
      if anon then ([("Authorization", "Anonymous " ++ accessKey)], false)
      else (hdrs, true)
    let host :=
      if leadsWith "http://".toList endpointURL.toList then
        String.mk (endpointURL.toList.drop 7)
      else if leadsWith "https://".toList endpointURL.toList then
        String.mk (endpointURL.toList.drop 8)
      else endpointURL
    let path0 := uriEncodeAWSV4 lib.encodeURIComponentJs reqPath
    let path1 :=
      match params with
      | some ps =>
        if ps ≠ [] then path0 ++ "?" ++ lib.serializeParams (reduceParams ps)
        else path0
      | none => path0
    let (headers2, body) :=
      match jsonEntity with
      | some e =>
        (hset headers1 "Content-Type" "application/json; charset=UTF-8", some e)
      | none => (headers1, none)
    let calledRefresh := refreshInvokedOnRequest sess.tokenKey httpMethod reqPath
    if sess.tokenKey ≠ none then
      let headers3 := hset headers2 "Authorization" ("Bearer " ++ jsStr sess.tokenKey)
      let headers4 := hset headers3 "User-Agent" "Para client for JavaScript"
      .ok ({ headers := headers4, signedPath := path1, body := body,
             calledRefresh := calledRefresh }, cache)
    else if doSign then
      let (signedReq, cache1) :=
        invokeSignedSign lib accessKey secret httpMethod host path1 headers2 body cache
      let headers4 := hset signedReq.headers "User-Agent" "Para client for JavaScript"
      .ok ({ headers := headers4, signedPath := signedReq.path.getD "",
             body := body, calledRefresh := calledRefresh }, cache1)
    else
      let headers4 := hset headers2 "User-Agent" "Para client for JavaScript"
      .ok ({ headers := headers4, signedPath := path1, body := body,
             calledRefresh := calledRefresh }, cache)

/-- Extracts the `Credential` field of an Authorization header: the text
after `Credential=` up to the next comma. -/
def dropAfterSub (target : List Char) : Nat → List Char → Option (List Char)
  | 0, _ => none
  | fuel + 1, l =>
    if leadsWith target l then some (l.drop target.length)
    else
      match l with
      | [] => none
      | _ :: rest => dropAfterSub target fuel rest

/-- The `Credential` field of an Authorization header value. -/
def credentialOf (h : String) : String :=
  match dropAfterSub "Credential=".toList (h.toList.length + 1) h.toList with
  | some rest => String.mk (rest.takeWhile (· ≠ ','))
  | none => ""

/-! ### Specification-side predicates and concrete instances -/

/-- The refresh-eligibility condition exactly as the specification words it:
a token is currently held, the stored expiry is non-null and in the future,
and the stored `nextRefresh` is non-null with `nextRefresh < now` or
`nextRefresh > expires` (JS comparison semantics). -/
def refreshEligibleSpec (s : Session) (now : Int) : Prop :=
  s.tokenKey ≠ none ∧
  (s.tokenKeyExpires ≠ JVal.null ∧ jsGt s.tokenKeyExpires (JVal.num now) = true) ∧
  (s.tokenKeyNextRefresh ≠ JVal.null ∧
    (jsLt s.tokenKeyNextRefresh (JVal.num now) = true ∨
     jsGt s.tokenKeyNextRefresh s.tokenKeyExpires = true))

instance (s : Session) (now : Int) : Decidable (refreshEligibleSpec s now) := by
  unfold refreshEligibleSpec; infer_instance

/-- The value is the anonymous-mode Authorization header `Anonymous <accessKey>`. -/
def isAnonHeader (accessKey v : String) : Bool :=
  v = "Anonymous " ++ accessKey

/-- The value is a bearer-token Authorization header. -/
def isBearerHeader (v : String) : Bool :=
  leadsWith "Bearer ".toList v.toList

/-- The value is an AWS4 signature Authorization header. -/
def isSigHeader (v : String) : Bool :=
  leadsWith "AWS4-HMAC-SHA256 ".toList v.toList

/-- How many of the three authentication mechanisms the value exhibits. -/
def mechTally (accessKey v : String) : Nat :=
  (if isAnonHeader accessKey v then 1 else 0) +
    (if isBearerHeader v then 1 else 0) + (if isSigHeader v then 1 else 0)

/-- No entry of the header object is (case-insensitively) an `authorization`
header. -/
def noCIAuth (h : Headers) : Prop :=
  ∀ kv ∈ h, lowerStr kv.1 ≠ "authorization"

instance (h : Headers) : Decidable (noCIAuth h) := by
  unfold noCIAuth; infer_instance

/-- The caller-supplied header argument is (the entry list of) a JS object
literal: property names are unique — a JS object cannot hold two properties
with the same name — and an `authorization` entry, if present, uses the exact
spelling `Authorization`.  This holds for every `invokeSignedRequest` call
site in the repository: all wrappers pass `null` (the empty list) except
`me(accessToken)`, which passes `{"Authorization": "Bearer " + accessToken}`. -/
def jsObjectHeaders (h : Headers) : Prop :=
  (List.map (fun kv : String × String => kv.1) h).Nodup ∧
    ∀ kv ∈ h, lowerStr kv.1 = "authorization" → kv.1 = "Authorization"

instance (h : Headers) : Decidable (jsObjectHeaders h) := by
  unfold jsObjectHeaders; infer_instance

/-- The string contains no comma (so it cannot collide inside the
comma-joined cache key). -/
def noCommaStr (s : String) : Prop := ',' ∉ s.toList

instance (s : String) : Decidable (noCommaStr s) := by
  unfold noCommaStr; infer_instance

/-- All four rendered components of a cache-key tuple are comma-free. -/
def commaFree4 (sec date region service : String) : Prop :=
  noCommaStr sec ∧ noCommaStr date ∧ noCommaStr region ∧ noCommaStr service

instance (a b c d : String) : Decidable (commaFree4 a b c d) := by
  unfold commaFree4; infer_instance

/-- The cache only holds entries written by the derivation chain itself: any
entry whose key decomposes as the joined key of a comma-free tuple with a
present secret stores exactly that tuple's derived key. -/
def keyChainConsistent (lib : NodeLib) (cache : LruCache) : Prop :=
  ∀ kv ∈ cache.entries, ∀ sec date region service : String,
    commaFree4 sec date region service →
    kv.1 = cacheKeyOf (some sec) date region service →
    kv.2 = deriveChain lib (some sec) date region service

/-- A concrete instantiation of the external Node collaborators, used to
evaluate the embedding on closed inputs: the cryptographic primitives are
modelled as injective string constructors, the URL/query helpers behave as
the Node originals do on the inputs exercised. -/
def testLib : NodeLib where
  hmacBin := fun k s => "HMAC(" ++ k ++ "|" ++ s ++ ")"
  hmacHex := fun k s => "HMACHEX(" ++ k ++ "|" ++ s ++ ")"
  hashHex := fun s => "SHA(" ++ s ++ ")"
  byteLength := fun s => s.length
  urlResolveRoot := fun p => if p = "" then "/" else p
  qsParse := fun _ => []
  qsStringify := fun _ => ""
  urlParseQuery := fun p => (p, [])
  urlFormatQuery := fun pq => pq.1
  serializeParams := fun l =>
    String.intercalate "&" (l.map (fun kv => kv.1 ++ "=" ++ kv.2))
  encodeURIComponentJs := fun s => s
  formatDatetime := fun _ => "20990101T000000Z"

/-! ## Helper lemmas -/

theorem strToList_append (a b : String) : (a ++ b).toList = a.toList ++ b.toList := by
  simp [String.toList, String.data_append]

theorem leadsWith_append_left (p a r : List Char) (h : leadsWith p a = true) :
    leadsWith p (a ++ r) = true := by
  induction p generalizing a with
  | nil => simp [leadsWith]
  | cons c cs ih =>
    cases a with
    | nil => simp [leadsWith] at h
    | cons x xs =>
      simp only [leadsWith, Bool.and_eq_true, decide_eq_true_eq] at h ⊢
      exact ⟨h.1, ih xs h.2⟩

theorem leadsWith_cons_elim {p : Char} {ps l : List Char}
    (h : leadsWith (p :: ps) l = true) :
    ∃ t, l = p :: t ∧ leadsWith ps t = true := by
  cases l with
  | nil => simp [leadsWith] at h
  | cons x xs =>
    simp only [leadsWith, Bool.and_eq_true, decide_eq_true_eq] at h
    exact ⟨xs, by rw [h.1], h.2⟩

theorem wireAuth_of_noCIAuth {h : Headers} (hna : noCIAuth h) : wireAuth h = none := by
  induction h with
  | nil => rfl
  | cons kv t ih =>
    have hkv : lowerStr kv.1 ≠ "authorization" := hna kv (List.mem_cons_self kv t)
    have ht : noCIAuth t := fun e he => hna e (List.mem_cons_of_mem kv he)
    simp [wireAuth, ih ht, hkv]

theorem wireAuth_hset_other {h : Headers} (k v : String)
    (hk : lowerStr k ≠ "authorization") : wireAuth (hset h k v) = wireAuth h := by
  induction h with
  | nil => simp [hset, wireAuth, hk]
  | cons kv t ih =>
    by_cases hkk : kv.1 = k
    · simp only [hset, if_pos hkk, wireAuth]
      rw [hkk, ← hkk]
      cases wireAuth t <;> simp [hkk, hk]
    · simp only [hset, if_neg hkk, wireAuth, ih]

theorem hdel_not_key {h : Headers} (k : String) : ∀ kv ∈ hdel h k, kv.1 ≠ k := by
  intro kv hkv
  simpa using List.of_mem_filter hkv

/-- Writing a property that is absent from the object appends it at the end. -/
theorem hset_eq_append {h : Headers} {k : String} (v : String)
    (hk : ∀ kv ∈ h, kv.1 ≠ k) : hset h k v = h ++ [(k, v)] := by
  induction h with
  | nil => rfl
  | cons kv t ih =>
    rcases kv with ⟨k2, v2⟩
    have hne : k2 ≠ k := hk (k2, v2) (List.mem_cons_self _ t)
    simp only [hset, if_neg hne, List.cons_append]
    rw [ih (fun e he => hk e (List.mem_cons_of_mem _ he))]

/-- An `authorization`-named entry appended last always wins on the wire,
whatever came before it. -/
theorem wireAuth_append_auth (h : Headers) {k : String} (v : String)
    (hk : lowerStr k = "authorization") : wireAuth (h ++ [(k, v)]) = some v := by
  induction h with
  | nil => simp [wireAuth, hk]
  | cons kv t ih => simp only [List.cons_append, wireAuth, List.append_eq, ih]

theorem mem_hset {h : Headers} {k v : String} :
    ∀ kv ∈ hset h k v, kv = (k, v) ∨ kv ∈ h := by
  induction h with
  | nil => intro e he; simp [hset] at he; exact Or.inl he
  | cons kv t ih =>
    rcases kv with ⟨k2, v2⟩
    intro e he
    by_cases hk2 : k2 = k
    · simp only [hset, if_pos hk2] at he
      rcases List.mem_cons.mp he with h1 | h1
      · exact Or.inl h1
      · exact Or.inr (List.mem_cons_of_mem _ h1)
    · simp only [hset, if_neg hk2] at he
      rcases List.mem_cons.mp he with h1 | h1
      · subst h1; exact Or.inr (List.mem_cons_self _ _)
      · rcases ih e h1 with h2 | h2
        · exact Or.inl h2
        · exact Or.inr (List.mem_cons_of_mem _ h2)

theorem keys_hset (h : Headers) (k v : String) :
    List.map (fun kv : String × String => kv.1) (hset h k v) =
      if k ∈ List.map (fun kv : String × String => kv.1) h
      then List.map (fun kv : String × String => kv.1) h
      else List.map (fun kv : String × String => kv.1) h ++ [k] := by
  induction h with
  | nil => simp [hset]
  | cons kv t ih =>
    rcases kv with ⟨k2, v2⟩
    by_cases hk2 : k2 = k
    · subst hk2
      simp [hset]
    · simp only [hset, if_neg hk2, List.map_cons, ih]
      have hne : ¬ k = k2 := fun hh => hk2 hh.symm
      by_cases hm : k ∈ List.map (fun kv : String × String => kv.1) t
      · simp [List.mem_cons, hm, hne]
      · simp [List.mem_cons, hm, hne]

/-- Writing a non-`authorization` property preserves the JS-object header
shape. -/
theorem jsObjectHeaders_hset {h : Headers} {k : String} (v : String)
    (hj : jsObjectHeaders h) (hk : lowerStr k ≠ "authorization") :
    jsObjectHeaders (hset h k v) := by
  obtain ⟨hnd, hsp⟩ := hj
  constructor
  · rw [keys_hset]
    by_cases hm : k ∈ List.map (fun kv : String × String => kv.1) h
    · rw [if_pos hm]; exact hnd
    · rw [if_neg hm]
      simp [List.nodup_append, hnd, hm]
  · intro e he hla
    rcases mem_hset e he with h1 | h1
    · subst h1; exact absurd hla hk
    · exact hsp e h1 hla

/-- Writing `h["Authorization"] = v` on a JS-object header map makes `v` the
wire Authorization value: the unique existing `Authorization` property, if
any, is replaced in place and no other case-variant exists; otherwise the
entry is appended last. -/
theorem wireAuth_hset_auth_js {h : Headers} (v : String)
    (hj : jsObjectHeaders h) :
    wireAuth (hset h "Authorization" v) = some v := by
  induction h with
  | nil =>
    simp [hset, wireAuth, show lowerStr "Authorization" = "authorization" from by decide]
  | cons kv t ih =>
    rcases kv with ⟨k2, v2⟩
    obtain ⟨hnd, hsp⟩ := hj
    by_cases hk2 : k2 = "Authorization"
    · subst hk2
      simp only [hset, if_pos rfl]
      have ht : noCIAuth t := by
        intro e he hla
        have he1 : e.1 = "Authorization" := hsp e (List.mem_cons_of_mem _ he) hla
        have hmem : e.1 ∈ List.map (fun kv : String × String => kv.1) t :=
          List.mem_map_of_mem _ he
        rw [List.map_cons, List.nodup_cons] at hnd
        exact hnd.1 (he1 ▸ hmem)
      simp [wireAuth, wireAuth_of_noCIAuth ht,
        show lowerStr "Authorization" = "authorization" from by decide]
    · simp only [hset, if_neg hk2]
      have hndt : (List.map (fun kv : String × String => kv.1) t).Nodup := by
        rw [List.map_cons, List.nodup_cons] at hnd
        exact hnd.2
      have ihv := ih ⟨hndt, fun e he => hsp e (List.mem_cons_of_mem _ he)⟩
      simp only [wireAuth, ihv]

/-- Overwriting the head `Authorization` entry (the anonymous-branch shape)
yields the new value when the tail has no `authorization` entries. -/
theorem wireAuth_hset_over {t : Headers} {k : String} (oldv v : String)
    (ht : noCIAuth t) (hk : lowerStr k = "authorization") :
    wireAuth (hset ((k, oldv) :: t) k v) = some v := by
  simp [hset, wireAuth, wireAuth_of_noCIAuth ht, hk]

theorem getDateTimeS_request (lib : NodeLib) (st : SignerState) :
    ((getDateTimeS lib st).2).request = st.request := by
  unfold getDateTimeS; cases st.datetime <;> rfl

theorem getDateS_request (lib : NodeLib) (st : SignerState) :
    ((getDateS lib st).2).request = st.request := by
  show ((getDateTimeS lib st).2).request = st.request
  exact getDateTimeS_request lib st

theorem credentialStringS_request (lib : NodeLib) (st : SignerState) :
    ((credentialStringS lib st).2).request = st.request := by
  show ((getDateS lib st).2).request = st.request
  exact getDateS_request lib st

theorem stringToSign_request (lib : NodeLib) (st : SignerState) :
    ((stringToSign lib st).2).request = st.request := by
  show ((credentialStringS lib (getDateTimeS lib st).2).2).request = st.request
  rw [credentialStringS_request, getDateTimeS_request]

theorem signatureC_request (lib : NodeLib) (st : SignerState) (cache : LruCache) :
    ((signatureC lib st cache).2.1).request = st.request := by
  show ((stringToSign lib (getDateS lib st).2).2).request = st.request
  rw [stringToSign_request, getDateS_request]

theorem authHeader_request (lib : NodeLib) (st : SignerState) (cache : LruCache) :
    ((authHeader lib st cache).2.1).request = st.request := by
  show ((signatureC lib (credentialStringS lib st).2 cache).2.1).request = st.request
  rw [signatureC_request, credentialStringS_request]

theorem authHeader_val (lib : NodeLib) (st : SignerState) (cache : LruCache) :
    ∃ ak cs sh sig, (authHeader lib st cache).1 =
      "AWS4-HMAC-SHA256 Credential=" ++ ak ++ "/" ++ cs ++ ", " ++ "SignedHeaders="
        ++ sh ++ ", " ++ "Signature=" ++ sig :=
  ⟨_, _, _, _, rfl⟩

theorem isSigHeader_shape (ak cs sh sig : String) :
    isSigHeader ("AWS4-HMAC-SHA256 Credential=" ++ ak ++ "/" ++ cs ++ ", "
      ++ "SignedHeaders=" ++ sh ++ ", " ++ "Signature=" ++ sig) = true := by
  unfold isSigHeader
  simp only [strToList_append, List.append_assoc]
  exact leadsWith_append_left _ _ _ (by decide)

theorem isBearerHeader_shape (ak cs sh sig : String) :
    isBearerHeader ("AWS4-HMAC-SHA256 Credential=" ++ ak ++ "/" ++ cs ++ ", "
      ++ "SignedHeaders=" ++ sh ++ ", " ++ "Signature=" ++ sig) = false := by
  unfold isBearerHeader
  simp only [strToList_append, List.append_assoc]
  have h1 : "AWS4-HMAC-SHA256 Credential=".toList =
    'A' :: "WS4-HMAC-SHA256 Credential=".toList := rfl
  have h2 : "Bearer ".toList = 'B' :: "earer ".toList := rfl
  rw [h1, h2, List.cons_append]
  simp [leadsWith]

theorem isAnonHeader_shape (ak2 ak cs sh sig : String) :
    isAnonHeader ak2 ("AWS4-HMAC-SHA256 Credential=" ++ ak ++ "/" ++ cs ++ ", "
      ++ "SignedHeaders=" ++ sh ++ ", " ++ "Signature=" ++ sig) = false := by
  simp only [isAnonHeader, decide_eq_false_iff_not]
  intro h
  have h2 := congrArg String.toList h
  simp only [strToList_append, List.append_assoc] at h2
  have ha : "AWS4-HMAC-SHA256 Credential=".toList =
    'A' :: 'W' :: "S4-HMAC-SHA256 Credential=".toList := rfl
  have hb : "Anonymous ".toList = 'A' :: 'n' :: "onymous ".toList := rfl
  rw [ha, hb] at h2
  simp at h2

theorem isBearerHeader_bearer (tok : String) :
    isBearerHeader ("Bearer " ++ tok) = true := by
  unfold isBearerHeader
  rw [strToList_append]
  exact leadsWith_append_left _ _ _ (by decide)

theorem isAnonHeader_bearer (ak tok : String) :
    isAnonHeader ak ("Bearer " ++ tok) = false := by
  simp only [isAnonHeader, decide_eq_false_iff_not]
  intro h
  have h2 := congrArg String.toList h
  rw [strToList_append, strToList_append] at h2
  have hb : "Bearer ".toList = 'B' :: "earer ".toList := rfl
  have ha : "Anonymous ".toList = 'A' :: "nonymous ".toList := rfl
  rw [hb, ha] at h2
  simp at h2

theorem isSigHeader_bearer (tok : String) :
    isSigHeader ("Bearer " ++ tok) = false := by
  unfold isSigHeader
  rw [strToList_append]
  have hb : "Bearer ".toList = 'B' :: "earer ".toList := rfl
  have ha : "AWS4-HMAC-SHA256 ".toList = 'A' :: "WS4-HMAC-SHA256 ".toList := rfl
  rw [hb, ha, List.cons_append]
  simp [leadsWith]

theorem isAnonHeader_anon (ak : String) :
    isAnonHeader ak ("Anonymous " ++ ak) = true := by
  simp [isAnonHeader]

theorem isBearerHeader_anon (ak : String) :
    isBearerHeader ("Anonymous " ++ ak) = false := by
  unfold isBearerHeader
  rw [strToList_append]
  have ha : "Anonymous ".toList = 'A' :: "nonymous ".toList := rfl
  have hb : "Bearer ".toList = 'B' :: "earer ".toList := rfl
  rw [ha, hb, List.cons_append]
  simp [leadsWith]

theorem isSigHeader_anon (ak : String) :
    isSigHeader ("Anonymous " ++ ak) = false := by
  unfold isSigHeader
  rw [strToList_append]
  have ha : "Anonymous ".toList = 'A' :: 'n' :: "onymous ".toList := rfl
  have hs : "AWS4-HMAC-SHA256 ".toList = 'A' :: 'W' :: "S4-HMAC-SHA256 ".toList := rfl
  rw [ha, hs, List.cons_append, List.cons_append]
  simp [leadsWith]

/-- Header mode of `sign()` always ends in
`delete headers.Authorization; delete headers.authorization;
headers.Authorization = this.authHeader()`: both case variants are removed
and the signature header is appended last, so it wins on the wire whatever
headers the request arrived with. -/
theorem signHeaderMode_wireAuth (lib : NodeLib) (st : SignerState) (cache : LruCache) :
    ∃ v, wireAuth (signHeaderMode lib st cache).1.request.headers = some v ∧
      isSigHeader v = true ∧ isBearerHeader v = false ∧
      ∀ ak, isAnonHeader ak v = false := by
  unfold signHeaderMode
  set st1 := signFixupHeaders lib st with hst1
  set st2 : SignerState := { st1 with request := { st1.request with
    headers := hdel (hdel st1.request.headers "Authorization") "authorization" } } with hst2
  have hno : ∀ kv ∈ hdel (hdel st1.request.headers "Authorization") "authorization",
      kv.1 ≠ "Authorization" := fun kv hkv =>
    hdel_not_key "Authorization" kv (List.mem_of_mem_filter hkv)
  obtain ⟨ak, cs, sh, sig, hval⟩ := authHeader_val lib st2 cache
  refine ⟨(authHeader lib st2 cache).1, ?_, ?_⟩
  · show wireAuth (hset ((authHeader lib st2 cache).2.1).request.headers
      "Authorization" ((authHeader lib st2 cache).1)) = some ((authHeader lib st2 cache).1)
    rw [authHeader_request]
    show wireAuth (hset (hdel (hdel st1.request.headers "Authorization") "authorization")
      "Authorization" ((authHeader lib st2 cache).1)) = some ((authHeader lib st2 cache).1)
    rw [hset_eq_append _ hno]
    exact wireAuth_append_auth _ _ (by decide)
  · rw [hval]
    exact ⟨isSigHeader_shape ak cs sh sig, isBearerHeader_shape ak cs sh sig,
      fun ak2 => isAnonHeader_shape ak2 ak cs sh sig⟩

theorem mechTally_bearer (ak x : String) : mechTally ak ("Bearer " ++ x) = 1 := by
  unfold mechTally
  rw [isAnonHeader_bearer, isBearerHeader_bearer, isSigHeader_bearer]
  simp

theorem mechTally_anon (ak : String) : mechTally ak ("Anonymous " ++ ak) = 1 := by
  unfold mechTally
  rw [isAnonHeader_anon, isBearerHeader_anon, isSigHeader_anon]
  simp

/-- The secret-key branch of `invokeSignedRequest` produces a single AWS4
signature Authorization header on the wire, and none of the other two
mechanisms. -/
theorem signBranchTail (lib : NodeLib) (ak : String) (secret : Option String)
    (m host p1 : String) (h2 : Headers) (b : Option String) (cache : LruCache)
    (hdrs0 : Headers)
    (hcond : strTruthy secret = true ∨ hdrs0 ≠ []) :
    ∃ v, wireAuth (hset (invokeSignedSign lib ak secret m host p1 h2 b cache).1.headers
        "User-Agent" "Para client for JavaScript") = some v ∧
      mechTally ak v = 1 ∧
      (isBearerHeader v = true ↔ (none : Option String) ≠ none) ∧
      (isAnonHeader ak v = true ↔
        ((none : Option String) = none ∧ strTruthy secret = false ∧ hdrs0 = [])) ∧
      (isSigHeader v = true ↔
        ((none : Option String) = none ∧ (strTruthy secret = true ∨ hdrs0 ≠ []))) := by
  obtain ⟨v, hv, hsig, hnb, hnan⟩ := signHeaderMode_wireAuth lib (mkSigner
    { method := some m, hostname := none, host := some host, path := some p1,
      headers := h2, body := b, service := some "para", region := none,
      signQuery := false, doNotModifyHeaders := false }
    { accessKeyId := ak, secretAccessKey := secret, sessionToken := none }) cache
  refine ⟨v, ?_, ?_, ?_, ?_, ?_⟩
  · rw [wireAuth_hset_other "User-Agent" _ (by decide)]
    exact hv
  · unfold mechTally
    rw [hsig, hnb, hnan ak]
    simp
  · simp [hnb]
  · rcases hcond with hc | hc <;> simp [hnan ak, hc]
  · simp [hsig, hcond]

/-! ## Claims -/

/-- C1 (amended): `revokeAllTokens()` leaves the local session state
(`tokenKey`, `tokenKeyExpires`, `tokenKeyNextRefresh`) entirely unchanged —
it clears nothing — and resolves `true` exactly when a non-null result body
was received; a subsequent `getAccessToken()` therefore returns the token
held before the call, not null. -/
theorem revokeAllTokens_keeps_local_state (s : Session) (resp : NetResult (Option String)) :
    (revokeAllTokens s resp).1 = s ∧
    getAccessToken (revokeAllTokens s resp).1 = getAccessToken s ∧
    ((revokeAllTokens s resp).2 = true ↔ ∃ b, resp = NetResult.ok (some b)) := by
  rcases resp with _ | r
  · simp [revokeAllTokens]
  · rcases r with _ | b <;> simp [revokeAllTokens]

/-- C1 witness: instantiated at a held token and a rejected response, the
session is returned unchanged. -/
theorem revokeAllTokens_keeps_local_state_witness :
    (revokeAllTokens ⟨some "T", JVal.null, JVal.null⟩ NetResult.reject).1 =
      ⟨some "T", JVal.null, JVal.null⟩ :=
  (revokeAllTokens_keeps_local_state ⟨some "T", JVal.null, JVal.null⟩ NetResult.reject).1

/-- C1 counterexample: with token `"TOKEN"` held, `revokeAllTokens()`
resolving successfully (non-null body, no transport error) resolves `true`
yet `getAccessToken()` still returns `some "TOKEN"` — the claim demands that
the local session state be cleared and `getAccessToken()` return null. -/
theorem revokeAllTokens_counterexample :
    (revokeAllTokens ⟨some "TOKEN", JVal.null, JVal.null⟩ (NetResult.ok (some "1"))).2 = true ∧
    getAccessToken (revokeAllTokens ⟨some "TOKEN", JVal.null, JVal.null⟩
      (NetResult.ok (some "1"))).1 = some "TOKEN" := by decide

/-- C3: `refreshToken()` performs the network refresh call if and only if a
token is currently held, the stored expiry is non-null and in the future, and
the stored `nextRefresh` is non-null with `nextRefresh < now` or
`nextRefresh > expires`; in every other state it resolves `false`, performs
no network call and leaves the session unchanged. -/
theorem refreshToken_call_iff (s : Session) (now : Int) (resp : NetResult (Option AuthBody)) :
    ((refreshToken s now resp).madeCall = true ↔ refreshEligibleSpec s now) ∧
    (¬ refreshEligibleSpec s now →
      refreshToken s now resp = { state := s, refreshed := false, madeCall := false }) := by
  have hg : refreshTokenGate s now = true ↔ refreshEligibleSpec s now := by
    unfold refreshTokenGate refreshEligibleSpec
    simp only [Bool.and_eq_true, Bool.or_eq_true, decide_eq_true_eq]
    tauto
  have hmc : (refreshToken s now resp).madeCall = refreshTokenGate s now := by
    unfold refreshToken
    by_cases h : refreshTokenGate s now = true
    · rw [if_pos h, h]
      rcases resp with _ | r
      · rfl
      · rcases r with _ | b
        · rfl
        · rcases b with ⟨u, j⟩
          rcases u with _ | u <;> rcases j with _ | j <;> rfl
    · rw [if_neg h]
      have h2 : refreshTokenGate s now = false := by simpa using h
      simp [h2]
  refine ⟨by rw [hmc]; exact hg, ?_⟩
  intro hne
  have hngate : ¬ (refreshTokenGate s now = true) := fun hgt => hne (hg.mp hgt)
  unfold refreshToken
  rw [if_neg hngate]

/-- C3 witness: with token held, expiry 200 in the future of now = 100 and
`nextRefresh = 50 < now`, the refresh call is made; with no token held the
call resolves `false` with no network call and an unchanged session. -/
theorem refreshToken_call_iff_witness :
    (refreshToken ⟨some "T", JVal.num 200, JVal.num 50⟩ 100 NetResult.reject).madeCall = true ∧
    refreshToken ⟨none, JVal.null, JVal.null⟩ 100 NetResult.reject =
      { state := ⟨none, JVal.null, JVal.null⟩, refreshed := false, madeCall := false } :=
  ⟨(refreshToken_call_iff ⟨some "T", JVal.num 200, JVal.num 50⟩ 100 NetResult.reject).1.mpr
      (by decide),
   (refreshToken_call_iff ⟨none, JVal.null, JVal.null⟩ 100 NetResult.reject).2 (by decide)⟩

/-- C10: `signIn` with a missing or empty provider or provider token returns
null immediately, issues no network request, and leaves every session field
unchanged — in particular a held access token is not cleared. -/
theorem signIn_blank_args_inert (s : Session) (provider providerToken : Option String)
    (remember : Bool) (resp : NetResult (Option AuthBody))
    (h : strTruthy provider = false ∨ strTruthy providerToken = false) :
    signIn s provider providerToken remember resp =
      { state := s, user := none, sentRequest := false } := by
  unfold signIn
  rw [if_neg (by rintro ⟨h1, h2⟩; rcases h with h3 | h3 <;> simp_all)]

/-- C10 witness: `signIn` with an empty provider on a session holding token
`"HELD"` returns null, sends nothing, and the token survives. -/
theorem signIn_blank_args_inert_witness :
    signIn ⟨some "HELD", JVal.num 9, JVal.num 9⟩ (some "") (some "tok") true NetResult.reject
      = { state := ⟨some "HELD", JVal.num 9, JVal.num 9⟩, user := none,
          sentRequest := false } :=
  signIn_blank_args_inert _ _ _ _ _ (Or.inl (by decide))

/-- C2 counterexample: a `signIn` whose request fails with a transport error
(the promise rejects into the `.catch`) resolves null but does NOT clear a
previously stored access token — the claim demands the token be cleared on
any failure. -/
theorem signIn_transport_error_keeps_token :
    (signIn ⟨some "OLD", JVal.null, JVal.null⟩ (some "facebook") (some "tok") true
        NetResult.reject).user = none ∧
    getAccessToken (signIn ⟨some "OLD", JVal.null, JVal.null⟩ (some "facebook") (some "tok")
        true NetResult.reject).state = some "OLD" := by decide

/-- C2 (amended): when `signIn` sends its request, it always resolves (never
rejects): on a transport error or error response it resolves null with the
session untouched; on a received body that is null or lacks a truthy `user`
or `jwt` member it clears the token and resolves null; on success with both
present it stores token/expiry/next-refresh when `rememberJWT` is true
(leaving state unchanged when false) and resolves the user payload. -/
theorem signIn_settlement (s : Session) (p t : Option String) (r : Bool)
    (hp : strTruthy p = true) (ht : strTruthy t = true) :
    signIn s p t r NetResult.reject = { state := s, user := none, sentRequest := true } ∧
    signIn s p t r (NetResult.ok none) =
      { state := clearAccessToken s, user := none, sentRequest := true } ∧
    (∀ b : AuthBody, (b.user = none ∨ b.jwt = none) →
      signIn s p t r (NetResult.ok (some b)) =
        { state := clearAccessToken s, user := none, sentRequest := true }) ∧
    (∀ (u : String) (jd : JwtData),
      signIn s p t true (NetResult.ok (some ⟨some u, some jd⟩)) =
        { state := { tokenKey := jd.access_token, tokenKeyExpires := jd.expires,
                     tokenKeyNextRefresh := jd.refresh },
          user := some u, sentRequest := true }) ∧
    (∀ (u : String) (jd : JwtData),
      signIn s p t false (NetResult.ok (some ⟨some u, some jd⟩)) =
        { state := s, user := some u, sentRequest := true }) := by
  have hc : strTruthy p = true ∧ strTruthy t = true := ⟨hp, ht⟩
  refine ⟨?_, ?_, ?_, ?_, ?_⟩
  · unfold signIn; rw [if_pos hc]
  · unfold signIn; rw [if_pos hc]
  · intro b hb
    unfold signIn; rw [if_pos hc]
    rcases b with ⟨bu, bj⟩
    rcases hb with hb | hb <;> dsimp only at hb <;> subst hb
    · rfl
    · rcases bu with _ | u <;> rfl
  · intro u jd; unfold signIn; rw [if_pos hc]; rfl
  · intro u jd; unfold signIn; rw [if_pos hc]; rfl

/-- C2 witness: a response with neither `user` nor `jwt` clears the stored
token and resolves null. -/
theorem signIn_settlement_witness :
    signIn ⟨some "OLD", JVal.null, JVal.null⟩ (some "fb") (some "tok") true
        (NetResult.ok (some ⟨none, none⟩)) =
      { state := clearAccessToken ⟨some "OLD", JVal.null, JVal.null⟩, user := none,
        sentRequest := true } :=
  (signIn_settlement ⟨some "OLD", JVal.null, JVal.null⟩ (some "fb") (some "tok") true
      (by decide) (by decide)).2.2.1 ⟨none, none⟩ (Or.inl rfl)

/-- C4 counterexample: a token `"A.e30.B"` whose middle segment decodes to the
valid JSON object `{}` (base64url `e30`, so the parse chain returns an object
with no `exp` member and throws nothing) leaves the previously stored
expiry/next-refresh values `5`/`3` in place instead of resetting them to
null, while the raw token string is stored — the claim demands that the
missing-fields case also reset the metadata to null. -/
theorem setAccessToken_missing_exp_keeps_state :
    (setAccessToken (fun _ => TokenParse.okObj JVal.undef JVal.undef)
        ⟨some "OLD", JVal.num 5, JVal.num 3⟩ (some "A.e30.B")).tokenKeyExpires = JVal.num 5 ∧
    (setAccessToken (fun _ => TokenParse.okObj JVal.undef JVal.undef)
        ⟨some "OLD", JVal.num 5, JVal.num 3⟩ (some "A.e30.B")).tokenKeyNextRefresh
      = JVal.num 3 ∧
    (setAccessToken (fun _ => TokenParse.okObj JVal.undef JVal.undef)
        ⟨some "OLD", JVal.num 5, JVal.num 3⟩ (some "A.e30.B")).tokenKey
      = some "A.e30.B" := by decide

/-- C4 (amended): `setAccessToken` always stores the raw token string; when
the payload-segment parse throws (malformed base64 or invalid JSON) the
expiry/next-refresh fields are reset to null; when the parse succeeds with a
truthy `exp` member the `exp` and `refresh` values are extracted; when the
parse succeeds but the object is falsy or lacks a truthy `exp`, the metadata
fields are left unchanged (not reset). -/
theorem setAccessToken_outcomes (parse : String → TokenParse) (s : Session) (t : String)
    (hlen : t.length > 1) :
    (setAccessToken parse s (some t)).tokenKey = some t ∧
    (parse t = TokenParse.err →
      setAccessToken parse s (some t) =
        { tokenKey := some t, tokenKeyExpires := JVal.null,
          tokenKeyNextRefresh := JVal.null }) ∧
    (∀ e rfr, parse t = TokenParse.okObj e rfr → e.truthy = true →
      setAccessToken parse s (some t) =
        { tokenKey := some t, tokenKeyExpires := e, tokenKeyNextRefresh := rfr }) ∧
    (∀ e rfr, parse t = TokenParse.okObj e rfr → e.truthy = false →
      setAccessToken parse s (some t) = { s with tokenKey := some t }) ∧
    (parse t = TokenParse.okFalsy →
      setAccessToken parse s (some t) = { s with tokenKey := some t }) := by
  unfold setAccessToken
  dsimp only
  rw [if_pos hlen]
  refine ⟨rfl, ?_, ?_, ?_, ?_⟩
  · intro hp; rw [hp]
  · intro e rfr hp htr; rw [hp]; dsimp only; rw [if_pos htr]
  · intro e rfr hp htr
    rw [hp]; dsimp only; rw [if_neg (by simp [htr])]
  · intro hp; rw [hp]

/-- C4 witness: a throwing parse resets expiry/next-refresh to null and
stores the raw token. -/
theorem setAccessToken_outcomes_witness :
    setAccessToken (fun _ => TokenParse.err) ⟨none, JVal.num 9, JVal.num 9⟩ (some "ab") =
      { tokenKey := some "ab", tokenKeyExpires := JVal.null,
        tokenKeyNextRefresh := JVal.null } :=
  (setAccessToken_outcomes (fun _ => TokenParse.err) ⟨none, JVal.num 9, JVal.num 9⟩ "ab"
      (by decide)).2.1 rfl

/-- C5: every request produced by `invokeSignedRequest` (non-blank access
key; the caller-supplied header argument is a JS object — unique property
names — whose `authorization` entry, if any, is spelled exactly
`Authorization`, as holds at every call site: `null` from the wrappers,
`{"Authorization": "Bearer " + accessToken}` from `me(accessToken)`) sends
exactly one authentication mechanism on the wire: the Authorization value is
an `Anonymous <accessKey>` header exactly when no secret, no token and no
caller headers are present, a `Bearer <token>` header exactly when a token is
held (any caller-supplied Authorization entry is overwritten in place), and
an AWS4 signature header exactly otherwise (the signer deletes both case
variants and appends its own) — and the value matches exactly one of the
three mechanism shapes (`mechTally` is 1). -/
theorem invokeSignedRequest_one_mechanism (lib : NodeLib) (accessKey : String)
    (secret : Option String) (sess : Session)
    (httpMethod endpointURL reqPath : String) (headers0 : Option Headers)
    (params : Option (List (String × PVal))) (jsonEntity : Option String)
    (cache : LruCache)
    (hak : jsTrim accessKey ≠ "")
    (hh : jsObjectHeaders (headers0.getD [])) :
    ∃ r c, invokeSignedRequest lib accessKey secret sess httpMethod endpointURL
        reqPath headers0 params jsonEntity cache = Except.ok (r, c) ∧
      ∃ v, wireAuth r.headers = some v ∧
        mechTally accessKey v = 1 ∧
        (isBearerHeader v = true ↔ sess.tokenKey ≠ none) ∧
        (isAnonHeader accessKey v = true ↔
          (sess.tokenKey = none ∧ strTruthy secret = false ∧ headers0.getD [] = [])) ∧
        (isSigHeader v = true ↔
          (sess.tokenKey = none ∧ (strTruthy secret = true ∨ headers0.getD [] ≠ []))) := by
  unfold invokeSignedRequest
  rw [if_neg hak]
  cases hsk : sess.tokenKey with
  | some tok =>
    have htt : (some tok ≠ none) := by simp
    dsimp only
    by_cases hanon : ¬ strTruthy secret = true ∧ ¬ strTruthy (some tok) = true ∧
        headers0.getD [] = []
    · rw [if_pos hanon]
      dsimp only
      rw [if_pos htt]
      refine ⟨_, _, rfl, ?_⟩
      dsimp only
      rw [wireAuth_hset_other "User-Agent" _ (by decide)]
      cases hje : jsonEntity <;> dsimp only
      · refine ⟨_, wireAuth_hset_over _ _ (by decide) (by decide), ?_⟩
        simp [mechTally_bearer, isBearerHeader_bearer, isAnonHeader_bearer,
          isSigHeader_bearer]
      · rw [show hset [("Authorization", "Anonymous " ++ accessKey)] "Content-Type"
            "application/json; charset=UTF-8" =
            [("Authorization", "Anonymous " ++ accessKey),
             ("Content-Type", "application/json; charset=UTF-8")] by simp [hset]]
        refine ⟨_, wireAuth_hset_over _ _ (by decide) (by decide), ?_⟩
        simp [mechTally_bearer, isBearerHeader_bearer, isAnonHeader_bearer,
          isSigHeader_bearer]
    · rw [if_neg hanon]
      dsimp only
      rw [if_pos htt]
      refine ⟨_, _, rfl, ?_⟩
      dsimp only
      rw [wireAuth_hset_other "User-Agent" _ (by decide)]
      cases hje : jsonEntity <;> dsimp only
      · refine ⟨_, wireAuth_hset_auth_js _ hh, ?_⟩
        simp [mechTally_bearer, isBearerHeader_bearer, isAnonHeader_bearer,
          isSigHeader_bearer]
      · refine ⟨_, wireAuth_hset_auth_js _ (jsObjectHeaders_hset _ hh (by decide)), ?_⟩
        simp [mechTally_bearer, isBearerHeader_bearer, isAnonHeader_bearer,
          isSigHeader_bearer]
  | none =>
    have htf : ¬ ((none : Option String) ≠ none) := by simp
    dsimp only
    by_cases hanon : ¬ strTruthy secret = true ∧ ¬ strTruthy (none : Option String) = true ∧
        headers0.getD [] = []
    · rw [if_pos hanon]
      dsimp only
      rw [if_neg htf, if_neg (by decide : ¬ (false = true))]
      refine ⟨_, _, rfl, ?_⟩
      dsimp only
      rw [wireAuth_hset_other "User-Agent" _ (by decide)]
      obtain ⟨ha1, _, ha3⟩ := hanon
      have ha1b : strTruthy secret = false := by simpa using ha1
      cases hje : jsonEntity <;> dsimp only
      · refine ⟨"Anonymous " ++ accessKey, ?_, ?_⟩
        · simp [wireAuth, show lowerStr "Authorization" = "authorization" from by decide]
        · simp [mechTally_anon, isAnonHeader_anon, isBearerHeader_anon, isSigHeader_anon,
            ha1b, ha3]
      · rw [show hset [("Authorization", "Anonymous " ++ accessKey)] "Content-Type"
            "application/json; charset=UTF-8" =
            [("Authorization", "Anonymous " ++ accessKey),
             ("Content-Type", "application/json; charset=UTF-8")] by simp [hset]]
        refine ⟨"Anonymous " ++ accessKey, ?_, ?_⟩
        · simp [wireAuth, show lowerStr "Authorization" = "authorization" from by decide,
            show lowerStr "Content-Type" = "content-type" from by decide]
        · simp [mechTally_anon, isAnonHeader_anon, isBearerHeader_anon, isSigHeader_anon,
            ha1b, ha3]
    · rw [if_neg hanon]
      dsimp only
      rw [if_neg htf, if_pos (show (true = true) from rfl)]
      have hcond : strTruthy secret = true ∨ headers0.getD [] ≠ [] := by
        by_cases hs : strTruthy secret = true
        · exact Or.inl hs
        · exact Or.inr fun h0 => hanon ⟨hs, by decide, h0⟩
      refine ⟨_, _, rfl, ?_⟩
      dsimp only
      cases hje : jsonEntity <;> dsimp only
      · exact signBranchTail lib accessKey secret _ _ _ _ _ cache _ hcond
      · exact signBranchTail lib accessKey secret _ _ _ _ _ cache _ hcond

/-- C5 witness: a signed `GET` with secret present and no token carries
exactly one mechanism, and the `me(accessToken)` call shape — caller headers
`{"Authorization": "Bearer OLD"}` with a token held — carries exactly one
mechanism, a bearer header. -/
theorem invokeSignedRequest_one_mechanism_witness :
    (∃ r c, invokeSignedRequest testLib "AKID" (some "SECRET") Session.init "GET"
        "https://paraio.com" "/v1/x" none none none LruCache.initial = Except.ok (r, c) ∧
      ∃ v, wireAuth r.headers = some v ∧ mechTally "AKID" v = 1) ∧
    (∃ r c, invokeSignedRequest testLib "AKID" (some "SECRET")
        ⟨some "TOK", JVal.null, JVal.null⟩ "GET" "https://paraio.com" "/v1/_me"
        (some [("Authorization", "Bearer OLD")]) none none LruCache.initial =
          Except.ok (r, c) ∧
      ∃ v, wireAuth r.headers = some v ∧ mechTally "AKID" v = 1 ∧
        isBearerHeader v = true) := by
  constructor
  · obtain ⟨r, c, hr, v, hv, ht, _⟩ := invokeSignedRequest_one_mechanism testLib "AKID"
      (some "SECRET") Session.init "GET" "https://paraio.com" "/v1/x" none none none
      LruCache.initial (by decide) (by decide)
    exact ⟨r, c, hr, v, hv, ht⟩
  · obtain ⟨r, c, hr, v, hv, ht, hb, _⟩ := invokeSignedRequest_one_mechanism testLib "AKID"
      (some "SECRET") ⟨some "TOK", JVal.null, JVal.null⟩ "GET" "https://paraio.com"
      "/v1/_me" (some [("Authorization", "Bearer OLD")]) none none
      LruCache.initial (by decide) (by decide)
    exact ⟨r, c, hr, v, hv, ht, hb.mpr (by simp)⟩

/-- The reduction of a multi-valued parameter to its first element does not
depend on the remaining elements, wherever the key sits in the map. -/
theorem reduceParams_first_only (ps1 : List (String × PVal)) (k x : String)
    (ys : List (Option String)) (ps2 : List (String × PVal)) :
    reduceParams (ps1 ++ (k, PVal.arr (some x :: ys)) :: ps2) =
      reduceParams (ps1 ++ (k, PVal.arr [some x]) :: ps2) := by
  induction ps1 with
  | nil => rfl
  | cons hd tl ih =>
    rcases hd with ⟨kk, vv⟩
    rcases vv with s | _ | vs
    · simp [reduceParams, ih]
    · simp [reduceParams, ih]
    · rcases vs with _ | ⟨v0, vrest⟩
      · simp [reduceParams, ih]
      · rcases v0 with _ | v0 <;> simp [reduceParams, ih]

/-- C8: a signed request whose query parameters include a key with multiple
values produces exactly the same request — same signed path, same headers,
same signature — as the request whose parameter map keeps only the first
value of that key: only the first value of a multi-valued key enters the
canonical query string that is signed (in particular `{a: ["x","y"]}` signs
using only `"x"`). -/
theorem signed_request_first_param_value (lib : NodeLib) (accessKey : String)
    (secret : Option String) (sess : Session) (httpMethod endpointURL reqPath : String)
    (headers0 : Option Headers) (jsonEntity : Option String) (cache : LruCache)
    (ps1 : List (String × PVal)) (k x : String) (ys : List (Option String))
    (ps2 : List (String × PVal)) :
    invokeSignedRequest lib accessKey secret sess httpMethod endpointURL reqPath headers0
        (some (ps1 ++ (k, PVal.arr (some x :: ys)) :: ps2)) jsonEntity cache =
      invokeSignedRequest lib accessKey secret sess httpMethod endpointURL reqPath headers0
        (some (ps1 ++ (k, PVal.arr [some x]) :: ps2)) jsonEntity cache := by
  unfold invokeSignedRequest
  dsimp only
  rw [if_pos (show (ps1 ++ (k, PVal.arr (some x :: ys)) :: ps2) ≠ [] by simp),
    if_pos (show (ps1 ++ (k, PVal.arr [some x]) :: ps2) ≠ [] by simp),
    reduceParams_first_only]

/-- C8 witness: the parameter map `{a: ["x","y"]}` produces the same signed
request as `{a: ["x"]}`. -/
theorem signed_request_first_param_value_witness :
    invokeSignedRequest testLib "AKID" (some "SECRET") Session.init "GET"
        "https://paraio.com" "/v1/x" none
        (some [("a", PVal.arr [some "x", some "y"])]) none LruCache.initial =
      invokeSignedRequest testLib "AKID" (some "SECRET") Session.init "GET"
        "https://paraio.com" "/v1/x" none
        (some [("a", PVal.arr [some "x"])]) none LruCache.initial :=
  signed_request_first_param_value testLib "AKID" (some "SECRET") Session.init "GET"
    "https://paraio.com" "/v1/x" none none LruCache.initial [] "a" "x" [some "y"] []

/-- C9: the guard that is meant to keep the token-refresh request from
re-triggering `refreshToken()` compares the request path against the literal
`JWT_PATH`.  With the default apiPath `"/v1/"` the refresh `GET` does have
that path and the guard works; but with an apiPath containing more than two
slashes (e.g. `"/api/v1/"`) `getFullPath` prefixes the JWT path, the guard
misses, and `refreshToken()` IS invoked for the token-refresh `GET` itself —
contradicting the code's own `// make sure you don't create an infinite
loop!` comment. -/
theorem refresh_guard_missed_on_prefixed_apiPath :
    getFullPath "/v1/" JWT_PATH = JWT_PATH ∧
    refreshInvokedOnRequest (some "TOKEN") "GET" (getFullPath "/v1/" JWT_PATH) = false ∧
    getFullPath "/api/v1/" JWT_PATH = "/api/jwt_auth" ∧
    refreshInvokedOnRequest (some "TOKEN") "GET" (getFullPath "/api/v1/" JWT_PATH) = true ∧
    ∃ r c, invokeSignedRequest testLib "AKID" (some "SECRET")
        ⟨some "TOKEN", JVal.null, JVal.null⟩ "GET" "https://paraio.com"
        (getFullPath "/api/v1/" JWT_PATH) none none none LruCache.initial
        = Except.ok (r, c) ∧ r.calledRefresh = true := by
  refine ⟨by decide, by decide, by decide, by decide, ?_⟩
  exact ⟨_, _, rfl, rfl⟩

theorem append_comma_inj {a b rest1 rest2 : List Char}
    (ha : ',' ∉ a) (hb : ',' ∉ b)
    (h : a ++ ',' :: rest1 = b ++ ',' :: rest2) : a = b ∧ rest1 = rest2 := by
  induction a generalizing b with
  | nil =>
    cases b with
    | nil => simpa using h
    | cons y ys =>
      simp only [List.nil_append, List.cons_append, List.cons.injEq] at h
      rw [← h.1] at hb
      simp at hb
  | cons x xs ih =>
    cases b with
    | nil =>
      simp only [List.cons_append, List.nil_append, List.cons.injEq] at h
      rw [h.1] at ha
      simp at ha
    | cons y ys =>
      simp only [List.cons_append, List.cons.injEq] at h
      have ha2 : ',' ∉ xs := fun hm => ha (List.mem_cons_of_mem x hm)
      have hb2 : ',' ∉ ys := fun hm => hb (List.mem_cons_of_mem y hm)
      obtain ⟨he1, he2⟩ := ih ha2 hb2 h.2
      exact ⟨by rw [h.1, he1], he2⟩

theorem cacheKeyOf_toList (sec d r sv : String) :
    (cacheKeyOf (some sec) d r sv).toList =
      sec.toList ++ ',' :: (d.toList ++ ',' :: (r.toList ++ ',' :: sv.toList)) := by
  simp [cacheKeyOf, strToList_append]

theorem cacheKeyOf_inj (sec1 d1 r1 s1 sec2 d2 r2 s2 : String)
    (h1 : commaFree4 sec1 d1 r1 s1) (h2 : commaFree4 sec2 d2 r2 s2)
    (heq : cacheKeyOf (some sec1) d1 r1 s1 = cacheKeyOf (some sec2) d2 r2 s2) :
    sec1 = sec2 ∧ d1 = d2 ∧ r1 = r2 ∧ s1 = s2 := by
  obtain ⟨ha1, ha2, ha3, ha4⟩ := h1
  obtain ⟨hb1, hb2, hb3, hb4⟩ := h2
  have hl := congrArg String.toList heq
  rw [cacheKeyOf_toList, cacheKeyOf_toList] at hl
  obtain ⟨e1, hl⟩ := append_comma_inj ha1 hb1 hl
  obtain ⟨e2, hl⟩ := append_comma_inj ha2 hb2 hl
  obtain ⟨e3, e4⟩ := append_comma_inj ha3 hb3 hl
  refine ⟨?_, ?_, ?_, ?_⟩ <;>
    first
      | exact String.ext e1
      | exact String.ext e2
      | exact String.ext e3
      | exact String.ext e4

theorem cacheKey_comma_count (sec d r sv : String) :
    (cacheKeyOf (some sec) d r sv).toList.count ',' =
      sec.toList.count ',' + d.toList.count ',' + r.toList.count ',' +
        sv.toList.count ',' + 3 := by
  rw [cacheKeyOf_toList]
  simp [List.count_append, List.count_cons]
  omega

theorem key_eq_commaFree (secA dA rA svA sec d r sv : String)
    (hcf : commaFree4 sec d r sv)
    (heq : cacheKeyOf (some secA) dA rA svA = cacheKeyOf (some sec) d r sv) :
    secA = sec ∧ dA = d ∧ rA = r ∧ svA = sv := by
  have hcnt := congrArg (fun s : String => s.toList.count ',') heq
  simp only [cacheKey_comma_count] at hcnt
  obtain ⟨h1, h2, h3, h4⟩ := hcf
  have z1 : sec.toList.count ',' = 0 := List.count_eq_zero.mpr h1
  have z2 : d.toList.count ',' = 0 := List.count_eq_zero.mpr h2
  have z3 : r.toList.count ',' = 0 := List.count_eq_zero.mpr h3
  have z4 : sv.toList.count ',' = 0 := List.count_eq_zero.mpr h4
  rw [z1, z2, z3, z4] at hcnt
  have hcfA : commaFree4 secA dA rA svA := by
    refine ⟨List.count_eq_zero.mp ?_, List.count_eq_zero.mp ?_,
      List.count_eq_zero.mp ?_, List.count_eq_zero.mp ?_⟩ <;> omega
  exact cacheKeyOf_inj _ _ _ _ _ _ _ _ hcfA ⟨h1, h2, h3, h4⟩ heq

theorem lruGet_some {c : LruCache} {k : String} {w : String}
    (h : (lruGet c k).1 = some w) : (k, w) ∈ c.entries := by
  unfold lruGet at h
  cases hf : c.entries.find? (fun kv => kv.1 = k) with
  | none => rw [hf] at h; simp at h
  | some kv0 =>
    rw [hf] at h
    simp only [Option.map] at h
    have hmem := List.mem_of_find?_eq_some hf
    have hpred := List.find?_some hf
    simp only [decide_eq_true_eq] at hpred
    simp only [Option.some.injEq] at h
    have heq : (k, w) = kv0 := by
      rcases kv0 with ⟨k0, v0⟩
      simp only at hpred h
      rw [hpred, h]
    rw [heq]
    exact hmem

theorem lruGet_entries_subset {c : LruCache} {k : String} {kv : String × String}
    (h : kv ∈ (lruGet c k).2.entries) : kv ∈ c.entries := by
  unfold lruGet at h
  cases hf : c.entries.find? (fun kv => kv.1 = k) with
  | none => rw [hf] at h; exact h
  | some kv0 =>
    rw [hf] at h
    simp only [Option.map] at h
    have hmem := List.mem_of_find?_eq_some hf
    have hpred := List.find?_some hf
    simp only [decide_eq_true_eq] at hpred
    rcases List.mem_cons.mp h with h1 | h1
    · rw [h1, ← hpred]
      simpa using hmem
    · exact List.mem_of_mem_filter h1

theorem lruSet_entries_subset {c : LruCache} {k v : String} {kv : String × String}
    (h : kv ∈ (lruSet c k v).entries) : kv = (k, v) ∨ kv ∈ c.entries := by
  unfold lruSet at h
  have h2 := List.mem_of_mem_take h
  rcases List.mem_cons.mp h2 with h3 | h3
  · exact Or.inl h3
  · exact Or.inr (List.mem_of_mem_filter h3)

theorem cacheUpdate_entries (cache : LruCache) (key chain : String)
    (kv : String × String)
    (h : kv ∈ ((match (lruGet cache key).1 with
        | some k => (k, (lruGet cache key).2)
        | none => (chain, lruSet (lruGet cache key).2 key chain)) :
          String × LruCache).2.entries) :
    kv ∈ cache.entries ∨ kv = (key, chain) := by
  cases hg : (lruGet cache key).1 with
  | some w => rw [hg] at h; exact Or.inl (lruGet_entries_subset h)
  | none =>
    rw [hg] at h
    dsimp only at h
    rcases lruSet_entries_subset h with h1 | h1
    · exact Or.inr h1
    · exact Or.inl (lruGet_entries_subset h1)

/-- Every entry of the cache after a `signature()` call was either already
present or is the derivation-chain entry the call stored for its own
(secret, date, region, service) tuple. -/
theorem signatureC_entries (lib : NodeLib) (st : SignerState) (cache : LruCache)
    (kv : String × String) (h : kv ∈ (signatureC lib st cache).2.2.entries) :
    kv ∈ cache.entries ∨
    ∃ date, kv = (cacheKeyOf st.credentials.secretAccessKey date st.region st.service,
      deriveChain lib st.credentials.secretAccessKey date st.region st.service) := by
  unfold signatureC getDateS getDateTimeS at h
  cases hdt : st.datetime <;> rw [hdt] at h <;> dsimp only at h <;>
    exact (cacheUpdate_entries _ _ _ _ h).imp id (fun he => ⟨_, he⟩)

/-- C6 (amended): the derived-key cache is keyed by the comma-joined rendered
tuple, so for any two distinct tuples with comma-free components (and present
secrets) the keys differ, a value stored for one tuple is never served for
the other, a hit on a consistently populated cache returns exactly the
4-step HMAC derivation chain of the requested tuple, and `signature()` calls
preserve that consistency. -/
theorem derived_key_cache_correct (lib : NodeLib)
    (sec1 d1 r1 s1 sec2 d2 r2 s2 : String)
    (h1 : commaFree4 sec1 d1 r1 s1) (h2 : commaFree4 sec2 d2 r2 s2)
    (hne : (sec1, d1, r1, s1) ≠ (sec2, d2, r2, s2)) :
    cacheKeyOf (some sec1) d1 r1 s1 ≠ cacheKeyOf (some sec2) d2 r2 s2 ∧
    (∀ cache v w, (lruGet (lruSet cache (cacheKeyOf (some sec1) d1 r1 s1) v)
        (cacheKeyOf (some sec2) d2 r2 s2)).1 = some w →
        (cacheKeyOf (some sec2) d2 r2 s2, w) ∈ cache.entries) ∧
    (∀ cache, keyChainConsistent lib cache →
      ∀ w, (lruGet cache (cacheKeyOf (some sec2) d2 r2 s2)).1 = some w →
        w = deriveChain lib (some sec2) d2 r2 s2) ∧
    (∀ st cache, keyChainConsistent lib cache →
      st.credentials.secretAccessKey ≠ none →
      keyChainConsistent lib (signatureC lib st cache).2.2) := by
  have hkne : cacheKeyOf (some sec1) d1 r1 s1 ≠ cacheKeyOf (some sec2) d2 r2 s2 := by
    intro he
    obtain ⟨e1, e2, e3, e4⟩ := cacheKeyOf_inj _ _ _ _ _ _ _ _ h1 h2 he
    exact hne (by rw [e1, e2, e3, e4])
  refine ⟨hkne, ?_, ?_, ?_⟩
  · intro cache v w hw
    have hm := lruGet_some hw
    rcases lruSet_entries_subset hm with hx | hx
    · exact absurd (congrArg Prod.fst hx).symm hkne
    · exact hx
  · intro cache hc w hw
    exact hc _ (lruGet_some hw) sec2 d2 r2 s2 h2 rfl
  · intro st cache hc hsec kv hkv sec d r sv hcf hkey
    rcases signatureC_entries lib st cache kv hkv with hm | ⟨date, hkvs⟩
    · exact hc kv hm sec d r sv hcf hkey
    · obtain ⟨secSt, hsecSt⟩ : ∃ s0, st.credentials.secretAccessKey = some s0 :=
        Option.ne_none_iff_exists'.mp hsec
      rw [hsecSt] at hkvs
      rw [hkvs] at hkey ⊢
      dsimp only at hkey ⊢
      obtain ⟨e1, e2, e3, e4⟩ :=
        key_eq_commaFree secSt date st.region st.service sec d r sv hcf hkey
      rw [e1, e2, e3, e4]

/-- C6 counterexample: the tuples `("a,b", "c", "r", "s")` and
`("a", "b,c", "r", "s")` are distinct but share the comma-joined cache key
`"a,b,c,r,s"`, so the cache returns the derived key stored for the first
tuple when the second tuple is requested — and the two tuples' derivation
chains differ. -/
theorem cache_key_collision_counterexample :
    (("a,b", "c") ≠ (("a" : String), ("b,c" : String))) ∧
    cacheKeyOf (some "a,b") "c" "r" "s" = cacheKeyOf (some "a") "b,c" "r" "s" ∧
    (lruGet (lruSet LruCache.initial (cacheKeyOf (some "a,b") "c" "r" "s")
        (deriveChain testLib (some "a,b") "c" "r" "s"))
      (cacheKeyOf (some "a") "b,c" "r" "s")).1
      = some (deriveChain testLib (some "a,b") "c" "r" "s") ∧
    deriveChain testLib (some "a,b") "c" "r" "s"
      ≠ deriveChain testLib (some "a") "b,c" "r" "s" := by decide

/-- C6 witness: two comma-free tuples differing only in the secret have
different cache keys. -/
theorem derived_key_cache_correct_witness :
    cacheKeyOf (some "SECRET") "20150101" "us-east-1" "para" ≠
      cacheKeyOf (some "SECRET2") "20150101" "us-east-1" "para" :=
  (derived_key_cache_correct testLib "SECRET" "20150101" "us-east-1" "para" "SECRET2"
    "20150101" "us-east-1" "para" (by decide) (by decide) (by decide)).1

/-- C7 (amended): for a request signed with secret `"SECRET"`, access key
`"AKID"`, method `GET`, host `service.us-east-1.amazonaws.com` (the provider
domain the host matcher recognises), empty body and fixed date header
`X-Amz-Date: 20150101T000000Z`, the produced Authorization header's
`Credential` field equals `AKID/20150101/us-east-1/service/aws4_request`,
for every instantiation of the external crypto/url collaborators and every
starting cache. -/
theorem credential_field_amazonaws_host (lib : NodeLib) (cache : LruCache) :
    credentialOf ((hget (aws4sign lib
      { method := some "GET", hostname := none,
        host := some "service.us-east-1.amazonaws.com", path := none,
        headers := [("X-Amz-Date", "20150101T000000Z")], body := none,
        service := none, region := none, signQuery := false,
        doNotModifyHeaders := false }
      { accessKeyId := "AKID", secretAccessKey := some "SECRET", sessionToken := none }
      cache).1.headers "Authorization").getD "")
      = "AKID/20150101/us-east-1/service/aws4_request" := rfl

/-- C7 witness: the amended end-to-end statement evaluated at the concrete
collaborator instantiation and the empty cache. -/
theorem credential_field_amazonaws_host_witness :
    credentialOf ((hget (aws4sign testLib
      { method := some "GET", hostname := none,
        host := some "service.us-east-1.amazonaws.com", path := none,
        headers := [("X-Amz-Date", "20150101T000000Z")], body := none,
        service := none, region := none, signQuery := false,
        doNotModifyHeaders := false }
      { accessKeyId := "AKID", secretAccessKey := some "SECRET", sessionToken := none }
      LruCache.initial).1.headers "Authorization").getD "")
      = "AKID/20150101/us-east-1/service/aws4_request" :=
  credential_field_amazonaws_host testLib LruCache.initial

/-- C7 counterexample: with the host `service.us-east-1.example.com` named by
the claim, the host matcher does not match (the pattern requires the
`.amazonaws.com` domain), the service resolves to the empty string, and the
`Credential` field is `AKID/20150101/us-east-1//aws4_request` — not the
`.../service/...` value the claim states. -/
theorem credential_field_counterexample :
    credentialOf ((hget (aws4sign testLib
      { method := some "GET", hostname := none,
        host := some "service.us-east-1.example.com", path := none,
        headers := [("X-Amz-Date", "20150101T000000Z")], body := none,
        service := none, region := none, signQuery := false,
        doNotModifyHeaders := false }
      { accessKeyId := "AKID", secretAccessKey := some "SECRET", sessionToken := none }
      LruCache.initial).1.headers "Authorization").getD "")
      = "AKID/20150101/us-east-1//aws4_request" ∧
    ("AKID/20150101/us-east-1//aws4_request" : String)
      ≠ "AKID/20150101/us-east-1/service/aws4_request" := by
  exact ⟨rfl, by decide⟩

end ParaClientJs
